import Mathlib

/-!
Verification of the flash-based EEPROM emulation engine (`src/lib.rs` of
the `eeprom` crate).

Flash memory is modelled as a total map from byte offsets to stored
half-word values; the controller only ever accesses even offsets.  A
half-word read (`Flash::read` returns `u16`) is modelled by reducing the
stored value mod 2^16, which is the physical truth of a 16-bit flash
cell.  Mutating controller operations additionally return the trace of
flash primitives they emit (half-word programs and page erases), so that
ordering properties of the emitted operation sequence can be stated.
Panics of the Rust code (assertion failures, `expect`, the
`too many variables` abort) are modelled by `Option`: `none` is an abort.
-/

namespace Eeprom

/-- Flash memory contents: byte offset to stored half-word value. -/
abbrev Mem := Nat → Nat

/-- `Flash::read`: reading a half-word yields a 16-bit value. -/
def fread (m : Mem) (o : Nat) : Nat := m o % 65536

/-- `Flash::write`: program the half-word at offset `o`. -/
def fwrite (m : Mem) (o v : Nat) : Mem := fun x => if x = o then v else m x

/-- `Flash::page_erase`: erase `bytes` bytes starting at `addr` to 0xFFFF. -/
def ferase (m : Mem) (addr bytes : Nat) : Mem :=
  fun x => if addr ≤ x ∧ x < addr + bytes then 65535 else m x

/-- One emitted flash primitive: a half-word program or a page erase. -/
inductive Ev where
  | wr (off v : Nat)
  | er (addr : Nat)
deriving DecidableEq

/-- `ACTIVE_PAGE_MARKER = 0xABCD`. -/
def ACTIVE_PAGE_MARKER : Nat := 43981

/-- `ERASED_ITEM = 0xffff_ffff`. -/
def ERASED_ITEM : Nat := 4294967295

/-- `ITEM_SIZE = size_of::<u32>() = 4`. -/
def ITEM_SIZE : Nat := 4

/-- EEPROM configuration parameters (the fields of `Params` used by the
engine; `flash_size` is only consumed by the flash driver). -/
structure Params where
  firstPage : Nat
  pageSize : Nat
  pageCount : Nat
deriving DecidableEq

/-- The EEPROM controller state: configuration plus the derived
amount of items per page. -/
structure EEPROM where
  params : Params
  pageItems : Nat
deriving DecidableEq

/-- `EEPROM::new`: `page_items = page_size * 1024 / ITEM_SIZE`. -/
def EEPROM.new (p : Params) : EEPROM :=
  { params := p, pageItems := p.pageSize * 1024 / ITEM_SIZE }

/-- `item_offset(page, item) = ((first_page + page) * page_items + item) * ITEM_SIZE`. -/
def EEPROM.itemOffset (e : EEPROM) (page item : Nat) : Nat :=
  ((e.params.firstPage + page) * e.pageItems + item) * ITEM_SIZE

/-- `page_offset(page) = item_offset(page, 0)`. -/
def EEPROM.pageOffset (e : EEPROM) (page : Nat) : Nat :=
  e.itemOffset page 0

/-- `read_item`: the 32-bit slot word `(data << 16) + tag`, where `tag`
is read at the item offset and `data` at offset + 2. -/
def EEPROM.readItem (e : EEPROM) (m : Mem) (page item : Nat) : Nat :=
  fread m (e.itemOffset page item + 2) * 65536 + fread m (e.itemOffset page item)

/-- First component of `read_item_tuple`: the tag half-word
(`item & 0xffff`). -/
def EEPROM.readItemTag (e : EEPROM) (m : Mem) (page item : Nat) : Nat :=
  e.readItem m page item % 65536

/-- Second component of `read_item_tuple`: the data half-word
(`item >> 16`). -/
def EEPROM.readItemData (e : EEPROM) (m : Mem) (page item : Nat) : Nat :=
  e.readItem m page item / 65536

/-- `page_status(page)`: the half-word at the page offset. -/
def EEPROM.pageStatus (e : EEPROM) (m : Mem) (page : Nat) : Nat :=
  fread m (e.pageOffset page)

/-- `set_page_status(page, status)`: program the marker half-word. -/
def EEPROM.setPageStatus (e : EEPROM) (m : Mem) (page status : Nat) : Mem × List Ev :=
  (fwrite m (e.pageOffset page) status, [Ev.wr (e.pageOffset page) status])

/-- The loop of `find_active`: scan pages `page, page+1, ...` (the given
fuel counts remaining pages) for the first one whose status is the
active marker. -/
def EEPROM.findActiveGo (e : EEPROM) (m : Mem) : Nat → Nat → Option Nat
  | _, 0 => none
  | page, fuel+1 =>
    if e.pageStatus m page = ACTIVE_PAGE_MARKER then some page
    else e.findActiveGo m (page+1) fuel

/-- `find_active()`: the lowest page in `0..page_count` whose marker is
`ACTIVE_PAGE_MARKER`. -/
def EEPROM.findActive (e : EEPROM) (m : Mem) : Option Nat :=
  e.findActiveGo m 0 e.params.pageCount

/-- Descending scan underlying `search`: check items `fuel-1, ..., lo`
for the first whose tag matches, returning its data half-word.
`search` instantiates `lo = 1`, which is the loop
`for item in (1..max_item).rev()` of the source. -/
def EEPROM.scanDesc (e : EEPROM) (m : Mem) (page tag lo : Nat) : Nat → Option Nat
  | 0 => none
  | i+1 =>
    if lo ≤ i then
      if e.readItemTag m page i = tag then some (e.readItemData m page i)
      else e.scanDesc m page tag lo i
    else none

/-- `search(page, max_item, tag)`: scan items `max_item-1` down to `1`,
returning the data of the first item whose tag matches. -/
def EEPROM.search (e : EEPROM) (m : Mem) (page maxItem tag : Nat) : Option Nat :=
  e.scanDesc m page tag 1 maxItem

/-- `read(tag)`.  The outer `Option` models the panics: `none` is the
reserved-tag assertion failure or the `cannot find active page` abort. -/
def EEPROM.read (e : EEPROM) (m : Mem) (tag : Nat) : Option (Option Nat) :=
  if tag &&& 32768 ≠ 0 then none
  else
    match e.findActive m with
    | none => none
    | some page => some (e.search m page e.pageItems tag)

/-- The loop of `is_page_dirty`: does any of the items
`item, ..., item+fuel-1` hold a non-erased word? -/
def EEPROM.isPageDirtyGo (e : EEPROM) (m : Mem) (page : Nat) : Nat → Nat → Bool
  | _, 0 => false
  | item, fuel+1 =>
    if e.readItem m page item ≠ ERASED_ITEM then true
    else e.isPageDirtyGo m page (item+1) fuel

/-- `is_page_dirty(page)`: scan all `page_items` items from item 0. -/
def EEPROM.isPageDirty (e : EEPROM) (m : Mem) (page : Nat) : Bool :=
  e.isPageDirtyGo m page 0 e.pageItems

/-- `erase_page(page)`: invoke the flash page-erase primitive only when
the page is dirty.  The hardware erases one full flash page
(`page_size * 1024` bytes) starting at the page offset. -/
def EEPROM.erasePage (e : EEPROM) (m : Mem) (page : Nat) : Mem × List Ev :=
  if e.isPageDirty m page then
    (ferase m (e.pageOffset page) (e.params.pageSize * 1024), [Ev.er (e.pageOffset page)])
  else (m, [])

/-- The loop of `init`: for each page (ascending, fuel counts remaining
pages), erase it unless it is the active page. -/
def EEPROM.initLoop (e : EEPROM) (active : Option Nat) : Mem → Nat → Nat → Mem × List Ev
  | m, _, 0 => (m, [])
  | m, page, fuel+1 =>
    let s1 : Mem × List Ev :=
      match active with
      | some p => if p = page then (m, []) else e.erasePage m page
      | none => e.erasePage m page
    let s2 := e.initLoop active s1.1 (page+1) fuel
    (s2.1, s1.2 ++ s2.2)

/-- `init()`: erase every non-active page; if no active page was found,
mark page 0 active. -/
def EEPROM.init (e : EEPROM) (m : Mem) : Mem × List Ev :=
  let active := e.findActive m
  let s1 := e.initLoop active m 0 e.params.pageCount
  match active with
  | none =>
    let s2 := e.setPageStatus s1.1 0 ACTIVE_PAGE_MARKER
    (s2.1, s1.2 ++ s2.2)
  | some _ => (s1.1, s1.2)

/-- The loop of `erase`: unconditionally invoke the flash page-erase
primitive for pages `0 .. fuel-1` at
`start_offset = (first_page + page) * page_size * 1024`
(ascending, as in the source; note this does NOT go through
`erase_page`, so there is no dirty short-circuit). -/
def EEPROM.eraseLoop (e : EEPROM) : Mem → Nat → Nat → Mem × List Ev
  | m, _, 0 => (m, [])
  | m, page, fuel+1 =>
    let off := (e.params.firstPage + page) * (e.params.pageSize * 1024)
    let m1 := ferase m off (e.params.pageSize * 1024)
    let s2 := e.eraseLoop m1 (page+1) fuel
    (s2.1, Ev.er off :: s2.2)

/-- `erase()`: erase every page, then mark page 0 active. -/
def EEPROM.erase (e : EEPROM) (m : Mem) : Mem × List Ev :=
  let s1 := e.eraseLoop m 0 e.params.pageCount
  let s2 := e.setPageStatus s1.1 0 ACTIVE_PAGE_MARKER
  (s2.1, s1.2 ++ s2.2)

/-- `program_item(page, pos, tag, data)`: write the data half-word first
(offset + 2) and the tag half-word second (offset). -/
def EEPROM.programItem (e : EEPROM) (m : Mem) (page pos tag dat : Nat) : Mem × List Ev :=
  (fwrite (fwrite m (e.itemOffset page pos + 2) dat) (e.itemOffset page pos) tag,
   [Ev.wr (e.itemOffset page pos + 2) dat, Ev.wr (e.itemOffset page pos) tag])

/-- The loop of `rescue_if_full`: scan source items `fuel-1, ..., 1`
(descending).  Skip erased tags; copy a tag to the next target position
when it is not yet present among target items `1 .. pos-1`.  Returns the
final memory, the next free target position and the emitted trace. -/
def EEPROM.rescueLoop (e : EEPROM) (src tgt : Nat) : Mem → Nat → Nat → Mem × Nat × List Ev
  | m, pos, 0 => (m, pos, [])
  | m, pos, i+1 =>
    if 1 ≤ i then
      if e.readItemTag m src i = 65535 then e.rescueLoop src tgt m pos i
      else if (e.search m tgt pos (e.readItemTag m src i)).isNone then
        let s1 := e.programItem m tgt pos (e.readItemTag m src i) (e.readItemData m src i)
        let s2 := e.rescueLoop src tgt s1.1 (pos+1) i
        (s2.1, s2.2.1, s1.2 ++ s2.2.2)
      else e.rescueLoop src tgt m pos i
    else (m, pos, [])

/-- `rescue_if_full(src_page)`: when the last item of the source page is
written, copy the live data to the next page, mark it active and erase
the source.  Returns the (possibly new) active page and the trace. -/
def EEPROM.rescueIfFull (e : EEPROM) (m : Mem) (srcPage : Nat) : Nat × Mem × List Ev :=
  if e.readItem m srcPage (e.pageItems - 1) = ERASED_ITEM then (srcPage, m, [])
  else
    let tgtPage := if srcPage = e.params.pageCount - 1 then 0 else srcPage + 1
    let s1 := e.rescueLoop srcPage tgtPage m 1 e.pageItems
    let s2 := e.setPageStatus s1.1 tgtPage ACTIVE_PAGE_MARKER
    let s3 := e.erasePage s2.1 srcPage
    (tgtPage, s3.1, s1.2.2 ++ s2.2 ++ s3.2)

/-- The loop of `write`: find the first item in `item, ..., item+fuel-1`
(ascending from item 1 at the call site) whose word is erased. -/
def EEPROM.findFreeGo (e : EEPROM) (m : Mem) (page : Nat) : Nat → Nat → Option Nat
  | _, 0 => none
  | item, fuel+1 =>
    if e.readItem m page item = ERASED_ITEM then some item
    else e.findFreeGo m page (item+1) fuel

/-- The slot selection of `write`: `for item in 1..page_items`, take the
first erased item. -/
def EEPROM.findFree (e : EEPROM) (m : Mem) (page : Nat) : Option Nat :=
  e.findFreeGo m page 1 (e.pageItems - 1)

/-- `write(tag, data)`.  `none` models the panics (reserved tag, no
active page, `too many variables`); on success returns the new memory
and the emitted trace. -/
def EEPROM.write (e : EEPROM) (m : Mem) (tag dat : Nat) : Option (Mem × List Ev) :=
  if tag &&& 32768 ≠ 0 then none
  else
    match e.findActive m with
    | none => none
    | some page =>
      let s1 := e.rescueIfFull m page
      match e.findFree s1.2.1 s1.1 with
      | none => none
      | some item =>
        let s2 := e.programItem s1.2.1 s1.1 item tag dat
        some (s2.1, s1.2.2 ++ s2.2)

/-- Well-formed configuration: at least two pages (the documented
minimum), a nonzero page size, and the `new`-established relation
between `page_items` and the page size in bytes. -/
def EEPROM.Valid (e : EEPROM) : Prop :=
  2 ≤ e.params.pageCount ∧ 1 ≤ e.params.pageSize ∧
    e.pageItems * ITEM_SIZE = e.params.pageSize * 1024

/-- The on-flash invariants I1-I3 of the format at a quiescent point:
there is an active page, every other page is fully erased, and the
written data slots of the active page form a gap-free prefix. -/
def EEPROM.Inv (e : EEPROM) (m : Mem) : Prop :=
  ∃ A, A < e.params.pageCount ∧ e.pageStatus m A = ACTIVE_PAGE_MARKER ∧
    (∀ p, p < e.params.pageCount → p ≠ A →
      ∀ i, i < e.pageItems → e.readItem m p i = ERASED_ITEM) ∧
    (∃ k, 1 ≤ k ∧ k ≤ e.pageItems ∧
      (∀ j, j < k → 1 ≤ j → e.readItem m A j ≠ ERASED_ITEM) ∧
      (∀ j, j < e.pageItems → k ≤ j → e.readItem m A j = ERASED_ITEM))

/-- Crash-safe write ordering of a trace: every half-word program of a
data-slot tag offset is preceded by a program of that slot's data
half-word (offset + 2). -/
def EEPROM.GoodTrace (e : EEPROM) (evs : List Ev) : Prop :=
  ∀ (k : Nat) (p i v : Nat), i < e.pageItems → 1 ≤ i →
    evs[k]? = some (Ev.wr (e.itemOffset p i) v) →
    ∃ q d, q < k ∧ evs[q]? = some (Ev.wr (e.itemOffset p i + 2) d)

/-!
Fault-injecting flash model.  The `Flash` collaborator may fail any of
its three operations with a typed error (type parameter `α`); the
injected errors are recorded per offset.  This model is used to settle
the error-propagation claim: in the source, `read_item` and
`page_status` call `.unwrap()` on the result of `Flash::read`, so a read
error aborts the program instead of being returned.
-/

/-- Outcome of a fallible controller operation: normal result, a flash
error returned to the caller, or a program abort (panic). -/
inductive Out (α β : Type) where
  | ok (val : β)
  | err (e : α)
  | abort
deriving DecidableEq

/-- A flash device with per-offset injected errors for each primitive. -/
structure FFlash (α : Type) where
  mem : Mem
  rdErr : Nat → Option α
  wrErr : Nat → Option α
  erErr : Nat → Option α

/-- Replace the memory of a fallible flash, keeping the injected errors. -/
def FFlash.setMem (f : FFlash α) (m : Mem) : FFlash α :=
  { f with mem := m }

/-- `Flash::read` on the fallible device. -/
def FFlash.rd (f : FFlash α) (o : Nat) : Out α Nat :=
  match f.rdErr o with
  | some ε => .err ε
  | none => .ok (fread f.mem o)

/-- `Flash::write` on the fallible device. -/
def FFlash.wrt (f : FFlash α) (o v : Nat) : Out α (FFlash α) :=
  match f.wrErr o with
  | some ε => .err ε
  | none => .ok (f.setMem (fwrite f.mem o v))

/-- `Flash::page_erase` on the fallible device. -/
def FFlash.ers (f : FFlash α) (addr bytes : Nat) : Out α (FFlash α) :=
  match f.erErr addr with
  | some ε => .err ε
  | none => .ok (f.setMem (ferase f.mem addr bytes))

/-- `Result::unwrap()`: a flash error becomes a program abort. -/
def Out.unwrapOut : Out α β → Out α β
  | .ok v => .ok v
  | .err _ => .abort
  | .abort => .abort

/-- Sequencing of fallible steps. -/
def Out.andThen : Out α β → (β → Out α γ) → Out α γ
  | .ok v, g => g v
  | .err ε, _ => .err ε
  | .abort, _ => .abort

/-- `read_item` on the fallible device: both `Flash::read` results are
unwrapped, so read errors abort. -/
def EEPROM.readItemF (e : EEPROM) (f : FFlash α) (page item : Nat) : Out α Nat :=
  ((f.rd (e.itemOffset page item)).unwrapOut).andThen fun tag =>
    ((f.rd (e.itemOffset page item + 2)).unwrapOut).andThen fun dat =>
      .ok (dat * 65536 + tag)

/-- `page_status` on the fallible device: the `Flash::read` result is
unwrapped, so a read error aborts. -/
def EEPROM.pageStatusF (e : EEPROM) (f : FFlash α) (page : Nat) : Out α Nat :=
  (f.rd (e.pageOffset page)).unwrapOut

/-- `set_page_status` on the fallible device. -/
def EEPROM.setPageStatusF (e : EEPROM) (f : FFlash α) (page status : Nat) :
    Out α (FFlash α) :=
  f.wrt (e.pageOffset page) status

/-- The loop of `find_active` on the fallible device. -/
def EEPROM.findActiveGoF (e : EEPROM) (f : FFlash α) : Nat → Nat → Out α (Option Nat)
  | _, 0 => .ok none
  | page, fuel+1 =>
    (e.pageStatusF f page).andThen fun s =>
      if s = ACTIVE_PAGE_MARKER then .ok (some page)
      else e.findActiveGoF f (page+1) fuel

/-- `find_active` on the fallible device. -/
def EEPROM.findActiveF (e : EEPROM) (f : FFlash α) : Out α (Option Nat) :=
  e.findActiveGoF f 0 e.params.pageCount

/-- The descending scan of `search` on the fallible device. -/
def EEPROM.scanDescF (e : EEPROM) (f : FFlash α) (page tag lo : Nat) :
    Nat → Out α (Option Nat)
  | 0 => .ok none
  | i+1 =>
    if lo ≤ i then
      (e.readItemF f page i).andThen fun w =>
        if w % 65536 = tag then .ok (some (w / 65536))
        else e.scanDescF f page tag lo i
    else .ok none

/-- `search` on the fallible device. -/
def EEPROM.searchF (e : EEPROM) (f : FFlash α) (page maxItem tag : Nat) :
    Out α (Option Nat) :=
  e.scanDescF f page tag 1 maxItem

/-- `read(tag)` on the fallible device: `abort` models the panics. -/
def EEPROM.readF (e : EEPROM) (f : FFlash α) (tag : Nat) : Out α (Option Nat) :=
  if tag &&& 32768 ≠ 0 then .abort
  else
    (e.findActiveF f).andThen fun act =>
      match act with
      | none => .abort
      | some page => e.searchF f page e.pageItems tag

/-- `program_item` on the fallible device: data first, then tag. -/
def EEPROM.programItemF (e : EEPROM) (f : FFlash α) (page pos tag dat : Nat) :
    Out α (FFlash α) :=
  (f.wrt (e.itemOffset page pos + 2) dat).andThen fun f1 =>
    f1.wrt (e.itemOffset page pos) tag

/-- The loop of `is_page_dirty` on the fallible device. -/
def EEPROM.isPageDirtyGoF (e : EEPROM) (f : FFlash α) (page : Nat) :
    Nat → Nat → Out α Bool
  | _, 0 => .ok false
  | item, fuel+1 =>
    (e.readItemF f page item).andThen fun w =>
      if w ≠ ERASED_ITEM then .ok true
      else e.isPageDirtyGoF f page (item+1) fuel

/-- `is_page_dirty` on the fallible device. -/
def EEPROM.isPageDirtyF (e : EEPROM) (f : FFlash α) (page : Nat) : Out α Bool :=
  e.isPageDirtyGoF f page 0 e.pageItems

/-- `erase_page` on the fallible device. -/
def EEPROM.erasePageF (e : EEPROM) (f : FFlash α) (page : Nat) : Out α (FFlash α) :=
  (e.isPageDirtyF f page).andThen fun d =>
    if d then f.ers (e.pageOffset page) (e.params.pageSize * 1024)
    else .ok f

/-- The loop of `init` on the fallible device. -/
def EEPROM.initLoopF (e : EEPROM) (active : Option Nat) :
    FFlash α → Nat → Nat → Out α (FFlash α)
  | f, _, 0 => .ok f
  | f, page, fuel+1 =>
    (match active with
     | some p => if p = page then Out.ok f else e.erasePageF f page
     | none => e.erasePageF f page).andThen fun f1 =>
      e.initLoopF active f1 (page+1) fuel

/-- `init` on the fallible device. -/
def EEPROM.initF (e : EEPROM) (f : FFlash α) : Out α (FFlash α) :=
  (e.findActiveF f).andThen fun active =>
    (e.initLoopF active f 0 e.params.pageCount).andThen fun f1 =>
      match active with
      | none => e.setPageStatusF f1 0 ACTIVE_PAGE_MARKER
      | some _ => .ok f1

/-- The loop of `erase` on the fallible device. -/
def EEPROM.eraseLoopF (e : EEPROM) : FFlash α → Nat → Nat → Out α (FFlash α)
  | f, _, 0 => .ok f
  | f, page, fuel+1 =>
    (f.ers ((e.params.firstPage + page) * (e.params.pageSize * 1024))
        (e.params.pageSize * 1024)).andThen fun f1 =>
      e.eraseLoopF f1 (page+1) fuel

/-- `erase` on the fallible device. -/
def EEPROM.eraseF (e : EEPROM) (f : FFlash α) : Out α (FFlash α) :=
  (e.eraseLoopF f 0 e.params.pageCount).andThen fun f1 =>
    e.setPageStatusF f1 0 ACTIVE_PAGE_MARKER

/-- The loop of `rescue_if_full` on the fallible device. -/
def EEPROM.rescueLoopF (e : EEPROM) (src tgt : Nat) :
    FFlash α → Nat → Nat → Out α (FFlash α × Nat)
  | f, pos, 0 => .ok (f, pos)
  | f, pos, i+1 =>
    if 1 ≤ i then
      (e.readItemF f src i).andThen fun w =>
        if w % 65536 = 65535 then e.rescueLoopF src tgt f pos i
        else
          (e.searchF f tgt pos (w % 65536)).andThen fun found =>
            if found.isNone then
              (e.programItemF f tgt pos (w % 65536) (w / 65536)).andThen fun f1 =>
                e.rescueLoopF src tgt f1 (pos+1) i
            else e.rescueLoopF src tgt f pos i
    else .ok (f, pos)

/-- `rescue_if_full` on the fallible device. -/
def EEPROM.rescueIfFullF (e : EEPROM) (f : FFlash α) (srcPage : Nat) :
    Out α (Nat × FFlash α) :=
  (e.readItemF f srcPage (e.pageItems - 1)).andThen fun w =>
    if w = ERASED_ITEM then .ok (srcPage, f)
    else
      let tgtPage := if srcPage = e.params.pageCount - 1 then 0 else srcPage + 1
      (e.rescueLoopF srcPage tgtPage f 1 e.pageItems).andThen fun s1 =>
        (e.setPageStatusF s1.1 tgtPage ACTIVE_PAGE_MARKER).andThen fun f2 =>
          (e.erasePageF f2 srcPage).andThen fun f3 => .ok (tgtPage, f3)

/-- The free-slot loop of `write` on the fallible device. -/
def EEPROM.findFreeGoF (e : EEPROM) (f : FFlash α) (page : Nat) :
    Nat → Nat → Out α (Option Nat)
  | _, 0 => .ok none
  | item, fuel+1 =>
    (e.readItemF f page item).andThen fun w =>
      if w = ERASED_ITEM then .ok (some item)
      else e.findFreeGoF f page (item+1) fuel

/-- `write(tag, data)` on the fallible device. -/
def EEPROM.writeF (e : EEPROM) (f : FFlash α) (tag dat : Nat) : Out α (FFlash α) :=
  if tag &&& 32768 ≠ 0 then .abort
  else
    (e.findActiveF f).andThen fun act =>
      match act with
      | none => .abort
      | some page =>
        (e.rescueIfFullF f page).andThen fun s1 =>
          (e.findFreeGoF s1.2 s1.1 1 (e.pageItems - 1)).andThen fun free =>
            match free with
            | none => .abort
            | some item => e.programItemF s1.2 s1.1 item tag dat

/-- An error value is one the flash collaborator injects for a
half-word program or a page erase. -/
def FFlash.FromWrEr (f : FFlash α) (ε : α) : Prop :=
  (∃ o, f.wrErr o = some ε) ∨ (∃ o, f.erErr o = some ε)

/-- An outcome that is never a returned flash error. -/
def Out.NoErr (x : Out α β) : Prop := ∀ ε, x ≠ .err ε

/-- Two fallible devices with identical injected errors (the memory may
differ): controller operations never change the injected errors. -/
def FFlash.sameErr (g f : FFlash α) : Prop :=
  g.rdErr = f.rdErr ∧ g.wrErr = f.wrErr ∧ g.erErr = f.erErr

/-!
Concrete instances used by the witnesses: a two-page controller with
1 KiB pages (256 items per page) starting at page index 0.
-/

/-- Witness configuration: `first_page = 0`, `page_size = 1` KiB,
`page_count = 2`; hence 256 items per page. -/
def ew : EEPROM := EEPROM.new ⟨0, 1, 2⟩

/-- Fully erased flash contents. -/
def memEmpty : Mem := fun _ => 65535

/-- Canonical empty state: page 0 marked active, everything else erased. -/
def memCanon : Mem := fwrite memEmpty 0 ACTIVE_PAGE_MARKER

/-- A state whose page 0 is active and completely full: every data slot
of page 0 holds tag 1 with data 2; page 1 is erased. -/
def memFull : Mem := fun o =>
  if o = 0 then ACTIVE_PAGE_MARKER
  else if o < 1024 then (if o % 4 = 0 then 1 else 2) else 65535

/-- A fallible device over the canonical empty state that reports error
`7` for the half-word read at offset 0 (the page-0 marker). -/
def fErrRead : FFlash Nat :=
  { mem := memCanon
    rdErr := fun o => if o = 0 then some 7 else none
    wrErr := fun _ => none
    erErr := fun _ => none }

/-- A state with one written slot: page 0 active, slot 1 = tag 1 with
data 0xDEAD, everything else erased. -/
def memOne : Mem := fwrite (fwrite memCanon 6 57005) 4 1

/-- A fallible device over a fully erased region that reports error `9`
for the half-word program at offset 0 (the page-0 marker). -/
def fErrWrite : FFlash Nat :=
  { mem := memEmpty
    rdErr := fun _ => none
    wrErr := fun o => if o = 0 then some 9 else none
    erErr := fun _ => none }

/-!
Basic lemmas about the flash primitives and the offset arithmetic.
-/

theorem fread_lt (m : Mem) (o : Nat) : fread m o < 65536 :=
  Nat.mod_lt _ (by omega)

theorem fread_fwrite_self (m : Mem) (o v : Nat) : fread (fwrite m o v) o = v % 65536 := by
  simp [fread, fwrite]

theorem fread_fwrite_ne (m : Mem) (o v x : Nat) (h : x ≠ o) :
    fread (fwrite m o v) x = fread m x := by
  simp [fread, fwrite, h]

theorem fwrite_ne (m : Mem) (o v x : Nat) (h : x ≠ o) : fwrite m o v x = m x := by
  simp [fwrite, h]

theorem fread_ferase_in (m : Mem) (addr bytes x : Nat) (h1 : addr ≤ x)
    (h2 : x < addr + bytes) : fread (ferase m addr bytes) x = 65535 := by
  simp [fread, ferase, h1, h2]

theorem fread_ferase_out (m : Mem) (addr bytes x : Nat)
    (h : ¬ (addr ≤ x ∧ x < addr + bytes)) : fread (ferase m addr bytes) x = fread m x := by
  simp only [fread, ferase, if_neg h]

theorem ferase_out (m : Mem) (addr bytes x : Nat)
    (h : ¬ (addr ≤ x ∧ x < addr + bytes)) : ferase m addr bytes x = m x := by
  simp only [ferase, if_neg h]

/-- A tag below 2^15 passes the reserved-bit assertion. -/
theorem land_reserved_eq_zero (t : Nat) (h : t < 32768) : t &&& 32768 = 0 := by
  have h15 : (32768 : Nat) = 2 ^ 15 := by norm_num
  rw [h15, Nat.and_two_pow]
  have : t.testBit 15 = false := Nat.testBit_lt_two_pow (by omega)
  simp [this]

theorem EEPROM.itemOffset_eq (e : EEPROM) (p i : Nat) :
    e.itemOffset p i = ((e.params.firstPage + p) * e.pageItems + i) * 4 := by
  simp [EEPROM.itemOffset, ITEM_SIZE]

/-- Distinct in-range slots have distinct base indices. -/
theorem EEPROM.slotBase_ne (e : EEPROM) (p i q j : Nat) (hi : i < e.pageItems)
    (hj : j < e.pageItems) (hne : p ≠ q ∨ i ≠ j) :
    (e.params.firstPage + p) * e.pageItems + i ≠ (e.params.firstPage + q) * e.pageItems + j := by
  by_cases hpq : p = q
  · subst hpq
    have : i ≠ j := by tauto
    omega
  · have hFne : e.params.firstPage + p ≠ e.params.firstPage + q := by omega
    rcases Nat.lt_or_ge (e.params.firstPage + p) (e.params.firstPage + q) with hlt | hge
    · have h1 : (e.params.firstPage + p + 1) * e.pageItems ≤
          (e.params.firstPage + q) * e.pageItems := Nat.mul_le_mul_right _ (by omega)
      have h2 : (e.params.firstPage + p + 1) * e.pageItems =
          (e.params.firstPage + p) * e.pageItems + e.pageItems := by ring
      omega
    · have hlt : e.params.firstPage + q < e.params.firstPage + p := by omega
      have h1 : (e.params.firstPage + q + 1) * e.pageItems ≤
          (e.params.firstPage + p) * e.pageItems := Nat.mul_le_mul_right _ (by omega)
      have h2 : (e.params.firstPage + q + 1) * e.pageItems =
          (e.params.firstPage + q) * e.pageItems + e.pageItems := by ring
      omega

/-- All four disequalities between the half-word offsets of two distinct
in-range slots. -/
theorem EEPROM.itemOffset_sep (e : EEPROM) (p i q j : Nat) (hi : i < e.pageItems)
    (hj : j < e.pageItems) (hne : p ≠ q ∨ i ≠ j) :
    e.itemOffset p i ≠ e.itemOffset q j ∧
    e.itemOffset p i ≠ e.itemOffset q j + 2 ∧
    e.itemOffset p i + 2 ≠ e.itemOffset q j ∧
    e.itemOffset p i + 2 ≠ e.itemOffset q j + 2 := by
  have hb := e.slotBase_ne p i q j hi hj hne
  rw [e.itemOffset_eq p i, e.itemOffset_eq q j]
  omega

/-- A data or tag half-word offset is never a slot offset shifted by 2. -/
theorem EEPROM.itemOffset_ne_add_two (e : EEPROM) (p i q j : Nat) :
    e.itemOffset p i ≠ e.itemOffset q j + 2 := by
  rw [e.itemOffset_eq p i, e.itemOffset_eq q j]
  omega

theorem EEPROM.pageOffset_eq (e : EEPROM) (p : Nat) :
    e.pageOffset p = (e.params.firstPage + p) * e.pageItems * 4 := by
  simp [EEPROM.pageOffset, EEPROM.itemOffset, ITEM_SIZE]

/-- The half-word offsets of an in-range slot lie in the page's range. -/
theorem EEPROM.itemOffset_in_page (e : EEPROM) (p i : Nat) (hi : i < e.pageItems) :
    e.pageOffset p ≤ e.itemOffset p i ∧
    e.itemOffset p i + 2 < e.pageOffset p + e.pageItems * 4 := by
  rw [e.pageOffset_eq, e.itemOffset_eq]
  omega

/-- The page ranges of distinct pages are disjoint. -/
theorem EEPROM.page_range_disjoint (e : EEPROM) (p q o : Nat) (hpq : p ≠ q)
    (hp1 : e.pageOffset p ≤ o) (hp2 : o < e.pageOffset p + e.pageItems * 4)
    (hq1 : e.pageOffset q ≤ o) (hq2 : o < e.pageOffset q + e.pageItems * 4) : False := by
  rw [e.pageOffset_eq] at hp1 hp2 hq1 hq2
  rcases Nat.lt_or_ge (e.params.firstPage + p) (e.params.firstPage + q) with hlt | hge
  · have h1 : (e.params.firstPage + p + 1) * e.pageItems ≤
        (e.params.firstPage + q) * e.pageItems := Nat.mul_le_mul_right _ (by omega)
    have h2 : (e.params.firstPage + p + 1) * e.pageItems =
        (e.params.firstPage + p) * e.pageItems + e.pageItems := by ring
    omega
  · have hlt : e.params.firstPage + q < e.params.firstPage + p := by
      rcases Nat.lt_or_ge (e.params.firstPage + q) (e.params.firstPage + p) with h | h
      · exact h
      · omega
    have h1 : (e.params.firstPage + q + 1) * e.pageItems ≤
        (e.params.firstPage + p) * e.pageItems := Nat.mul_le_mul_right _ (by omega)
    have h2 : (e.params.firstPage + q + 1) * e.pageItems =
        (e.params.firstPage + q) * e.pageItems + e.pageItems := by ring
    omega

/-!
Congruence lemmas for the slot readers.
-/

theorem EEPROM.readItem_congr (e : EEPROM) (m m' : Mem) (p i : Nat)
    (h0 : fread m' (e.itemOffset p i) = fread m (e.itemOffset p i))
    (h2 : fread m' (e.itemOffset p i + 2) = fread m (e.itemOffset p i + 2)) :
    e.readItem m' p i = e.readItem m p i := by
  simp [EEPROM.readItem, h0, h2]

theorem EEPROM.readItem_congr_mem (e : EEPROM) (m m' : Mem) (p i : Nat)
    (h0 : m' (e.itemOffset p i) = m (e.itemOffset p i))
    (h2 : m' (e.itemOffset p i + 2) = m (e.itemOffset p i + 2)) :
    e.readItem m' p i = e.readItem m p i := by
  simp [EEPROM.readItem, fread, h0, h2]

theorem EEPROM.readItem_lt (e : EEPROM) (m : Mem) (p i : Nat) :
    e.readItem m p i < 4294967296 := by
  have h1 := fread_lt m (e.itemOffset p i)
  have h2 := fread_lt m (e.itemOffset p i + 2)
  simp only [EEPROM.readItem]
  omega

theorem EEPROM.readItemTag_lt (e : EEPROM) (m : Mem) (p i : Nat) :
    e.readItemTag m p i < 65536 :=
  Nat.mod_lt _ (by omega)

theorem EEPROM.readItemData_lt (e : EEPROM) (m : Mem) (p i : Nat) :
    e.readItemData m p i < 65536 := by
  have := e.readItem_lt m p i
  simp only [EEPROM.readItemData]
  omega

theorem EEPROM.readItemTag_eq_fread (e : EEPROM) (m : Mem) (p i : Nat) :
    e.readItemTag m p i = fread m (e.itemOffset p i) := by
  have := fread_lt m (e.itemOffset p i)
  simp only [EEPROM.readItemTag, EEPROM.readItem]
  omega

theorem EEPROM.readItemData_eq_fread (e : EEPROM) (m : Mem) (p i : Nat) :
    e.readItemData m p i = fread m (e.itemOffset p i + 2) := by
  have h0 := fread_lt m (e.itemOffset p i)
  have h2 := fread_lt m (e.itemOffset p i + 2)
  simp only [EEPROM.readItemData, EEPROM.readItem]
  omega

theorem EEPROM.readItem_erased_iff (e : EEPROM) (m : Mem) (p i : Nat) :
    e.readItem m p i = ERASED_ITEM ↔
      fread m (e.itemOffset p i) = 65535 ∧ fread m (e.itemOffset p i + 2) = 65535 := by
  have h0 := fread_lt m (e.itemOffset p i)
  have h2 := fread_lt m (e.itemOffset p i + 2)
  simp only [EEPROM.readItem, ERASED_ITEM]
  omega

theorem EEPROM.readItemTag_of_erased (e : EEPROM) (m : Mem) (p i : Nat)
    (h : e.readItem m p i = ERASED_ITEM) : e.readItemTag m p i = 65535 := by
  simp [EEPROM.readItemTag, h, ERASED_ITEM]

theorem EEPROM.readItem_ne_erased_of_tag (e : EEPROM) (m : Mem) (p i : Nat)
    (h : e.readItemTag m p i ≠ 65535) : e.readItem m p i ≠ ERASED_ITEM := by
  intro hc
  exact h (e.readItemTag_of_erased m p i hc)

/-!
Characterizations of the scanning loops.
-/

theorem EEPROM.scanDesc_eq_none_iff (e : EEPROM) (m : Mem) (page tag lo : Nat) :
    ∀ n, e.scanDesc m page tag lo n = none ↔
      ∀ i, i < n → lo ≤ i → e.readItemTag m page i ≠ tag := by
  intro n
  induction n with
  | zero => simp [EEPROM.scanDesc]
  | succ i ih =>
    by_cases hlo : lo ≤ i
    · by_cases htag : e.readItemTag m page i = tag
      · simp only [EEPROM.scanDesc, if_pos hlo, if_pos htag]
        constructor
        · intro h; exact absurd h (by simp)
        · intro h; exact absurd htag (h i (by omega) hlo)
      · simp only [EEPROM.scanDesc, if_pos hlo, if_neg htag, ih]
        constructor
        · intro h j hj hloj
          rcases Nat.lt_or_ge j i with hji | hji
          · exact h j hji hloj
          · have : j = i := by omega
            subst this; exact htag
        · intro h j hj hloj; exact h j (by omega) hloj
    · simp only [EEPROM.scanDesc, if_neg hlo]
      constructor
      · intro _ j hj hloj; omega
      · intro _; trivial

theorem EEPROM.scanDesc_eq_some_iff (e : EEPROM) (m : Mem) (page tag lo : Nat) :
    ∀ n d, e.scanDesc m page tag lo n = some d ↔
      ∃ i, i < n ∧ lo ≤ i ∧ e.readItemTag m page i = tag ∧ e.readItemData m page i = d ∧
        ∀ j, j < n → i < j → e.readItemTag m page j ≠ tag := by
  intro n
  induction n with
  | zero => simp [EEPROM.scanDesc]
  | succ i ih =>
    intro d
    by_cases hlo : lo ≤ i
    · by_cases htag : e.readItemTag m page i = tag
      · simp only [EEPROM.scanDesc, if_pos hlo, if_pos htag, Option.some_inj]
        constructor
        · intro h
          exact ⟨i, by omega, hlo, htag, h, by intro j hj hij; omega⟩
        · rintro ⟨i0, hi0, hlo0, htag0, hd0, htop0⟩
          rcases Nat.lt_or_ge i0 i with hii | hii
          · exact absurd htag (htop0 i (by omega) hii)
          · have : i0 = i := by omega
            subst this; exact hd0
      · simp only [EEPROM.scanDesc, if_pos hlo, if_neg htag, ih]
        constructor
        · rintro ⟨i0, hi0, hlo0, htag0, hd0, htop0⟩
          refine ⟨i0, by omega, hlo0, htag0, hd0, ?_⟩
          intro j hj hij
          rcases Nat.lt_or_ge j i with hji | hji
          · exact htop0 j hji hij
          · have : j = i := by omega
            subst this; exact htag
        · rintro ⟨i0, hi0, hlo0, htag0, hd0, htop0⟩
          have hii : i0 ≠ i := by intro h; subst h; exact htag htag0
          exact ⟨i0, by omega, hlo0, htag0, hd0, fun j hj hij => htop0 j (by omega) hij⟩
    · simp only [EEPROM.scanDesc, if_neg hlo]
      constructor
      · intro h; exact absurd h (by simp)
      · rintro ⟨i0, hi0, hlo0, _⟩; omega

theorem EEPROM.scanDesc_congr (e : EEPROM) (m m' : Mem) (page tag lo : Nat)
    (n : Nat)
    (h : ∀ i, i < n → lo ≤ i →
      (e.readItemTag m' page i = tag ↔ e.readItemTag m page i = tag) ∧
      (e.readItemTag m page i = tag → e.readItemData m' page i = e.readItemData m page i)) :
    e.scanDesc m' page tag lo n = e.scanDesc m page tag lo n := by
  induction n with
  | zero => rfl
  | succ i ih =>
    by_cases hlo : lo ≤ i
    · by_cases htag : e.readItemTag m page i = tag
      · have htag' : e.readItemTag m' page i = tag := ((h i (by omega) hlo).1).mpr htag
        simp only [EEPROM.scanDesc, if_pos hlo, if_pos htag, if_pos htag']
        exact congrArg some ((h i (by omega) hlo).2 htag)
      · have htag' : ¬ e.readItemTag m' page i = tag := by
          intro hc; exact htag (((h i (by omega) hlo).1).mp hc)
        simp only [EEPROM.scanDesc, if_pos hlo, if_neg htag, if_neg htag']
        exact ih (fun j hj hloj => h j (by omega) hloj)
    · simp only [EEPROM.scanDesc, if_neg hlo]

theorem EEPROM.scanDesc_drop_top (e : EEPROM) (m : Mem) (page tag lo k : Nat) :
    ∀ n, k ≤ n → (∀ j, j < n → k ≤ j → e.readItemTag m page j ≠ tag) →
      e.scanDesc m page tag lo n = e.scanDesc m page tag lo k := by
  intro n
  induction n with
  | zero => intro hk _; have : k = 0 := by omega
            rw [this]
  | succ i ih =>
    intro hk h
    rcases Nat.lt_or_ge i k with hik | hik
    · have : k = i + 1 := by omega
      rw [this]
    · by_cases hlo : lo ≤ i
      · have htag : e.readItemTag m page i ≠ tag := h i (by omega) hik
        simp only [EEPROM.scanDesc, if_pos hlo, if_neg htag]
        exact ih hik (fun j hj hkj => h j (by omega) hkj)
      · simp only [EEPROM.scanDesc, if_neg hlo]
        symm
        rw [e.scanDesc_eq_none_iff]
        intro j hj hloj; omega

theorem EEPROM.findActiveGo_eq_some_iff (e : EEPROM) (m : Mem) :
    ∀ fuel start p, e.findActiveGo m start fuel = some p ↔
      (start ≤ p ∧ p < start + fuel ∧ e.pageStatus m p = ACTIVE_PAGE_MARKER ∧
        ∀ q, q < p → start ≤ q → e.pageStatus m q ≠ ACTIVE_PAGE_MARKER) := by
  intro fuel
  induction fuel with
  | zero => intro start p; simp [EEPROM.findActiveGo]; omega
  | succ f ih =>
    intro start p
    by_cases hs : e.pageStatus m start = ACTIVE_PAGE_MARKER
    · simp only [EEPROM.findActiveGo, if_pos hs, Option.some_inj]
      constructor
      · intro h; subst h
        exact ⟨Nat.le_refl _, by omega, hs, fun q hq hsq => by omega⟩
      · rintro ⟨h1, h2, h3, h4⟩
        by_contra hne
        exact h4 start (by omega) (Nat.le_refl _) hs
    · simp only [EEPROM.findActiveGo, if_neg hs, ih]
      constructor
      · rintro ⟨h1, h2, h3, h4⟩
        refine ⟨by omega, by omega, h3, ?_⟩
        intro q hq hsq
        rcases Nat.lt_or_ge q (start + 1) with hq1 | hq1
        · have : q = start := by omega
          subst this; exact hs
        · exact h4 q hq hq1
      · rintro ⟨h1, h2, h3, h4⟩
        have hps : p ≠ start := by intro h; subst h; exact hs h3
        exact ⟨by omega, by omega, h3, fun q hq hsq => h4 q hq (by omega)⟩

theorem EEPROM.findActiveGo_eq_none_iff (e : EEPROM) (m : Mem) :
    ∀ fuel start, e.findActiveGo m start fuel = none ↔
      ∀ q, q < start + fuel → start ≤ q → e.pageStatus m q ≠ ACTIVE_PAGE_MARKER := by
  intro fuel
  induction fuel with
  | zero => intro start; simp [EEPROM.findActiveGo]; omega
  | succ f ih =>
    intro start
    by_cases hs : e.pageStatus m start = ACTIVE_PAGE_MARKER
    · simp only [EEPROM.findActiveGo, if_pos hs]
      constructor
      · intro h; exact absurd h (by simp)
      · intro h; exact absurd hs (h start (by omega) (Nat.le_refl _))
    · simp only [EEPROM.findActiveGo, if_neg hs, ih]
      constructor
      · intro h q hq hsq
        rcases Nat.lt_or_ge q (start + 1) with hq1 | hq1
        · have : q = start := by omega
          subst this; exact hs
        · exact h q (by omega) hq1
      · intro h q hq hsq; exact h q (by omega) (by omega)

/-- `find_active` returns the given page when it is active and no lower
page is. -/
theorem EEPROM.findActive_eq_some (e : EEPROM) (m : Mem) (A : Nat)
    (hA : A < e.params.pageCount) (hact : e.pageStatus m A = ACTIVE_PAGE_MARKER)
    (hlow : ∀ q, q < A → e.pageStatus m q ≠ ACTIVE_PAGE_MARKER) :
    e.findActive m = some A := by
  rw [EEPROM.findActive, e.findActiveGo_eq_some_iff]
  exact ⟨by omega, by omega, hact, fun q hq _ => hlow q hq⟩

theorem EEPROM.findFreeGo_eq_some_iff (e : EEPROM) (m : Mem) (page : Nat) :
    ∀ fuel item s, e.findFreeGo m page item fuel = some s ↔
      (item ≤ s ∧ s < item + fuel ∧ e.readItem m page s = ERASED_ITEM ∧
        ∀ j, j < s → item ≤ j → e.readItem m page j ≠ ERASED_ITEM) := by
  intro fuel
  induction fuel with
  | zero => intro item s; simp [EEPROM.findFreeGo]; omega
  | succ f ih =>
    intro item s
    by_cases hs : e.readItem m page item = ERASED_ITEM
    · simp only [EEPROM.findFreeGo, if_pos hs, Option.some_inj]
      constructor
      · intro h; subst h
        exact ⟨Nat.le_refl _, by omega, hs, fun j hj hij => by omega⟩
      · rintro ⟨h1, h2, h3, h4⟩
        by_contra hne
        exact h4 item (by omega) (Nat.le_refl _) hs
    · simp only [EEPROM.findFreeGo, if_neg hs, ih]
      constructor
      · rintro ⟨h1, h2, h3, h4⟩
        refine ⟨by omega, by omega, h3, ?_⟩
        intro j hj hij
        rcases Nat.lt_or_ge j (item + 1) with hj1 | hj1
        · have : j = item := by omega
          subst this; exact hs
        · exact h4 j hj hj1
      · rintro ⟨h1, h2, h3, h4⟩
        have hsi : s ≠ item := by intro h; subst h; exact hs h3
        exact ⟨by omega, by omega, h3, fun j hj hij => h4 j hj (by omega)⟩

theorem EEPROM.findFreeGo_eq_none_iff (e : EEPROM) (m : Mem) (page : Nat) :
    ∀ fuel item, e.findFreeGo m page item fuel = none ↔
      ∀ j, j < item + fuel → item ≤ j → e.readItem m page j ≠ ERASED_ITEM := by
  intro fuel
  induction fuel with
  | zero => intro item; simp [EEPROM.findFreeGo]; omega
  | succ f ih =>
    intro item
    by_cases hs : e.readItem m page item = ERASED_ITEM
    · simp only [EEPROM.findFreeGo, if_pos hs]
      constructor
      · intro h; exact absurd h (by simp)
      · intro h; exact absurd hs (h item (by omega) (Nat.le_refl _))
    · simp only [EEPROM.findFreeGo, if_neg hs, ih]
      constructor
      · intro h j hj hij
        rcases Nat.lt_or_ge j (item + 1) with hj1 | hj1
        · have : j = item := by omega
          subst this; exact hs
        · exact h j (by omega) hj1
      · intro h j hj hij; exact h j (by omega) (by omega)

theorem EEPROM.isPageDirtyGo_eq_false_iff (e : EEPROM) (m : Mem) (page : Nat) :
    ∀ fuel item, e.isPageDirtyGo m page item fuel = false ↔
      ∀ i, i < item + fuel → item ≤ i → e.readItem m page i = ERASED_ITEM := by
  intro fuel
  induction fuel with
  | zero => intro item; simp [EEPROM.isPageDirtyGo]; omega
  | succ f ih =>
    intro item
    by_cases hs : e.readItem m page item = ERASED_ITEM
    · have : ¬ (e.readItem m page item ≠ ERASED_ITEM) := by simp [hs]
      simp only [EEPROM.isPageDirtyGo, if_neg this, ih]
      constructor
      · intro h i hi hii
        rcases Nat.lt_or_ge i (item + 1) with hi1 | hi1
        · have : i = item := by omega
          subst this; exact hs
        · exact h i (by omega) hi1
      · intro h i hi hii; exact h i (by omega) (by omega)
    · simp only [EEPROM.isPageDirtyGo, if_pos hs]
      constructor
      · intro h; exact absurd h (by simp)
      · intro h; exact absurd (h item (by omega) (Nat.le_refl _)) hs

/-- A page is dirty when some item is not erased. -/
theorem EEPROM.isPageDirty_eq_true (e : EEPROM) (m : Mem) (page i : Nat)
    (hi : i < e.pageItems) (h : e.readItem m page i ≠ ERASED_ITEM) :
    e.isPageDirty m page = true := by
  by_contra hc
  have hb : e.isPageDirty m page = false := by
    cases hd : e.isPageDirty m page
    · rfl
    · exact absurd hd hc
  rw [EEPROM.isPageDirty, e.isPageDirtyGo_eq_false_iff] at hb
  exact h (hb i (by omega) (by omega))

/-- A clean page has every item erased. -/
theorem EEPROM.isPageDirty_eq_false (e : EEPROM) (m : Mem) (page : Nat)
    (h : ∀ i, i < e.pageItems → e.readItem m page i = ERASED_ITEM) :
    e.isPageDirty m page = false := by
  rw [EEPROM.isPageDirty, e.isPageDirtyGo_eq_false_iff]
  intro i hi _; exact h i (by omega)

/-!
Effect and frame lemmas for the mutating primitives.
-/

theorem EEPROM.wf_bytes (e : EEPROM)
    (hWF : e.pageItems * ITEM_SIZE = e.params.pageSize * 1024) :
    e.params.pageSize * 1024 = e.pageItems * 4 := by
  simp only [ITEM_SIZE] at hWF
  omega

theorem EEPROM.programItem_mem (e : EEPROM) (m : Mem) (page pos tag dat : Nat) :
    (e.programItem m page pos tag dat).1 =
      fwrite (fwrite m (e.itemOffset page pos + 2) dat) (e.itemOffset page pos) tag := rfl

theorem EEPROM.programItem_frame (e : EEPROM) (m : Mem) (page pos tag dat o : Nat)
    (h0 : o ≠ e.itemOffset page pos) (h2 : o ≠ e.itemOffset page pos + 2) :
    (e.programItem m page pos tag dat).1 o = m o := by
  rw [e.programItem_mem, fwrite_ne _ _ _ _ h0, fwrite_ne _ _ _ _ h2]

theorem EEPROM.programItem_readItem_self (e : EEPROM) (m : Mem) (page pos tag dat : Nat)
    (ht : tag < 65536) (hd : dat < 65536) :
    e.readItem (e.programItem m page pos tag dat).1 page pos = dat * 65536 + tag := by
  rw [EEPROM.readItem, e.programItem_mem]
  have hne : e.itemOffset page pos + 2 ≠ e.itemOffset page pos := by omega
  rw [fread_fwrite_self, fread_fwrite_ne _ _ _ _ hne, fread_fwrite_self]
  rw [Nat.mod_eq_of_lt ht, Nat.mod_eq_of_lt hd]

theorem EEPROM.programItem_readItem_other (e : EEPROM) (m : Mem) (page pos tag dat q j : Nat)
    (hpos : pos < e.pageItems) (hj : j < e.pageItems) (hne : q ≠ page ∨ j ≠ pos) :
    e.readItem (e.programItem m page pos tag dat).1 q j = e.readItem m q j := by
  obtain ⟨s1, s2, s3, s4⟩ := e.itemOffset_sep q j page pos hj hpos hne
  apply e.readItem_congr_mem
  · exact e.programItem_frame m page pos tag dat _ s1 s2
  · exact e.programItem_frame m page pos tag dat _ s3 s4

theorem EEPROM.programItem_pageStatus (e : EEPROM) (m : Mem) (page pos tag dat q : Nat)
    (hpos1 : 1 ≤ pos) (hpos2 : pos < e.pageItems) :
    e.pageStatus (e.programItem m page pos tag dat).1 q = e.pageStatus m q := by
  obtain ⟨s1, s2, s3, s4⟩ := e.itemOffset_sep q 0 page pos (by omega) hpos2 (by omega)
  rw [EEPROM.pageStatus, EEPROM.pageStatus, EEPROM.pageOffset]
  rw [e.programItem_mem]
  rw [fread_fwrite_ne _ _ _ _ s1, fread_fwrite_ne _ _ _ _ s2]

theorem EEPROM.setPageStatus_pageStatus_self (e : EEPROM) (m : Mem) (page status : Nat) :
    e.pageStatus (e.setPageStatus m page status).1 page = status % 65536 := by
  rw [EEPROM.pageStatus, EEPROM.setPageStatus]
  exact fread_fwrite_self _ _ _

theorem EEPROM.setPageStatus_pageStatus_other (e : EEPROM) (m : Mem) (page status q : Nat)
    (hI : 0 < e.pageItems) (hne : q ≠ page) :
    e.pageStatus (e.setPageStatus m page status).1 q = e.pageStatus m q := by
  obtain ⟨s1, _, _, _⟩ := e.itemOffset_sep q 0 page 0 hI hI (Or.inl hne)
  rw [EEPROM.pageStatus, EEPROM.pageStatus, EEPROM.setPageStatus]
  exact fread_fwrite_ne _ _ _ _ s1

theorem EEPROM.setPageStatus_readItem (e : EEPROM) (m : Mem) (page status q j : Nat)
    (hI : 0 < e.pageItems) (hj : j < e.pageItems) (hne : q ≠ page ∨ j ≠ 0) :
    e.readItem (e.setPageStatus m page status).1 q j = e.readItem m q j := by
  obtain ⟨s1, _, s3, _⟩ := e.itemOffset_sep q j page 0 hj hI hne
  apply e.readItem_congr_mem
  · exact fwrite_ne _ _ _ _ s1
  · exact fwrite_ne _ _ _ _ s3

theorem EEPROM.setPageStatus_frame (e : EEPROM) (m : Mem) (page status o : Nat)
    (h : o ≠ e.pageOffset page) : (e.setPageStatus m page status).1 o = m o :=
  fwrite_ne _ _ _ _ h

theorem EEPROM.erasePage_readItem_self (e : EEPROM) (m : Mem) (page i : Nat)
    (hWF : e.pageItems * ITEM_SIZE = e.params.pageSize * 1024) (hi : i < e.pageItems) :
    e.readItem (e.erasePage m page).1 page i = ERASED_ITEM := by
  obtain ⟨hin1, hin2⟩ := e.itemOffset_in_page page i hi
  rw [EEPROM.erasePage]
  by_cases hd : e.isPageDirty m page
  · simp only [if_pos hd]
    rw [EEPROM.readItem, e.wf_bytes hWF]
    rw [fread_ferase_in _ _ _ _ (by omega) (by omega),
        fread_ferase_in _ _ _ _ (by omega) (by omega)]
    rfl
  · simp only [if_neg hd]
    have hb : e.isPageDirty m page = false := by
      cases h : e.isPageDirty m page
      · rfl
      · exact absurd h hd
    rw [EEPROM.isPageDirty, e.isPageDirtyGo_eq_false_iff] at hb
    exact hb i (by omega) (by omega)

theorem EEPROM.erasePage_frame (e : EEPROM) (m : Mem) (page o : Nat)
    (hWF : e.pageItems * ITEM_SIZE = e.params.pageSize * 1024)
    (h : ¬ (e.pageOffset page ≤ o ∧ o < e.pageOffset page + e.pageItems * 4)) :
    (e.erasePage m page).1 o = m o := by
  rw [EEPROM.erasePage]
  by_cases hd : e.isPageDirty m page
  · simp only [if_pos hd]
    rw [e.wf_bytes hWF]
    exact ferase_out _ _ _ _ h
  · simp only [if_neg hd]

theorem EEPROM.erasePage_readItem_other (e : EEPROM) (m : Mem) (page q j : Nat)
    (hWF : e.pageItems * ITEM_SIZE = e.params.pageSize * 1024)
    (hj : j < e.pageItems) (hne : q ≠ page) :
    e.readItem (e.erasePage m page).1 q j = e.readItem m q j := by
  obtain ⟨hin1, hin2⟩ := e.itemOffset_in_page q j hj
  apply e.readItem_congr_mem
  · apply e.erasePage_frame m page _ hWF
    intro hc
    exact e.page_range_disjoint q page _ hne (by omega) (by omega) hc.1 hc.2
  · apply e.erasePage_frame m page _ hWF
    intro hc
    exact e.page_range_disjoint q page _ hne (by omega) (by omega) hc.1 hc.2

theorem EEPROM.erasePage_pageStatus_self (e : EEPROM) (m : Mem) (page : Nat)
    (hWF : e.pageItems * ITEM_SIZE = e.params.pageSize * 1024) (hI : 0 < e.pageItems) :
    e.pageStatus (e.erasePage m page).1 page = 65535 := by
  have h := e.erasePage_readItem_self m page 0 hWF hI
  rw [e.readItem_erased_iff] at h
  rw [EEPROM.pageStatus, EEPROM.pageOffset]
  exact h.1

theorem EEPROM.programItem_readItemTag_self (e : EEPROM) (m : Mem) (page pos tag dat : Nat)
    (ht : tag < 65536) (hd : dat < 65536) :
    e.readItemTag (e.programItem m page pos tag dat).1 page pos = tag := by
  rw [EEPROM.readItemTag, e.programItem_readItem_self m page pos tag dat ht hd]
  omega

theorem EEPROM.programItem_readItemData_self (e : EEPROM) (m : Mem) (page pos tag dat : Nat)
    (ht : tag < 65536) (hd : dat < 65536) :
    e.readItemData (e.programItem m page pos tag dat).1 page pos = dat := by
  rw [EEPROM.readItemData, e.programItem_readItem_self m page pos tag dat ht hd]
  omega

theorem EEPROM.readItemTag_congr (e : EEPROM) (m m' : Mem) (p i : Nat)
    (h : e.readItem m' p i = e.readItem m p i) :
    e.readItemTag m' p i = e.readItemTag m p i := by
  rw [EEPROM.readItemTag, EEPROM.readItemTag, h]

theorem EEPROM.readItemData_congr (e : EEPROM) (m m' : Mem) (p i : Nat)
    (h : e.readItem m' p i = e.readItem m p i) :
    e.readItemData m' p i = e.readItemData m p i := by
  rw [EEPROM.readItemData, EEPROM.readItemData, h]

theorem EEPROM.scanDesc_congr_eq (e : EEPROM) (m m' : Mem) (page tag lo n : Nat)
    (h : ∀ j, j < n → lo ≤ j → e.readItem m' page j = e.readItem m page j) :
    e.scanDesc m' page tag lo n = e.scanDesc m page tag lo n := by
  apply e.scanDesc_congr
  intro i hi hlo
  have hh := h i hi hlo
  exact ⟨by rw [e.readItemTag_congr m m' page i hh], fun _ => e.readItemData_congr m m' page i hh⟩

theorem EEPROM.scanDesc_succ (e : EEPROM) (m : Mem) (page tag lo i : Nat) (hlo : lo ≤ i) :
    e.scanDesc m page tag lo (i+1) =
      if e.readItemTag m page i = tag then some (e.readItemData m page i)
      else e.scanDesc m page tag lo i := by
  simp only [EEPROM.scanDesc, if_pos hlo]

theorem EEPROM.scanDesc_one (e : EEPROM) (m : Mem) (page tag : Nat) :
    e.scanDesc m page tag 1 1 = none := by
  simp [EEPROM.scanDesc]

theorem EEPROM.erasePage_pageStatus_other (e : EEPROM) (m : Mem) (page q : Nat)
    (hWF : e.pageItems * ITEM_SIZE = e.params.pageSize * 1024)
    (hI : 0 < e.pageItems) (hne : q ≠ page) :
    e.pageStatus (e.erasePage m page).1 q = e.pageStatus m q := by
  have h := e.erasePage_readItem_other m page q 0 hWF hI hne
  rw [EEPROM.readItem, EEPROM.readItem] at h
  have h1 := fread_lt (e.erasePage m page).1 (e.itemOffset q 0)
  have h2 := fread_lt m (e.itemOffset q 0)
  have h3 := fread_lt (e.erasePage m page).1 (e.itemOffset q 0 + 2)
  have h4 := fread_lt m (e.itemOffset q 0 + 2)
  rw [EEPROM.pageStatus, EEPROM.pageStatus, EEPROM.pageOffset]
  omega

/-- Master lemma for the compaction copy loop.  From a state whose
target items at positions `pos` and above are erased, the loop extends
the target prefix, changes nothing but the target items it fills, keeps
the target tail erased, preserves tags already present in the target,
realizes the descending source scan for tags absent from the target, and
keeps the target prefix tags non-erased and pairwise distinct. -/
theorem EEPROM.rescueLoop_spec (e : EEPROM) (src tgt : Nat) (hst : src ≠ tgt) :
    ∀ n, 1 ≤ n → ∀ m pos m' pos' evs,
      1 ≤ pos → pos + n ≤ e.pageItems + 1 →
      (∀ j, j < e.pageItems → pos ≤ j → e.readItem m tgt j = ERASED_ITEM) →
      (∀ j, j < pos → 1 ≤ j → e.readItemTag m tgt j ≠ 65535) →
      (∀ j k, j < k → k < pos → 1 ≤ j →
        e.readItemTag m tgt j ≠ e.readItemTag m tgt k) →
      e.rescueLoop src tgt m pos n = (m', pos', evs) →
      ((pos ≤ pos' ∧ pos' ≤ pos + n - 1) ∧
      (∀ o, m' o ≠ m o → ∃ j, pos ≤ j ∧ j < pos' ∧
          (o = e.itemOffset tgt j ∨ o = e.itemOffset tgt j + 2)) ∧
      (∀ j, j < e.pageItems → pos' ≤ j → e.readItem m' tgt j = ERASED_ITEM) ∧
      (∀ τ w, τ ≠ 65535 → e.search m tgt pos τ = some w →
          e.search m' tgt pos' τ = some w) ∧
      (∀ τ, τ ≠ 65535 → e.search m tgt pos τ = none →
          e.search m' tgt pos' τ = e.scanDesc m src τ 1 n) ∧
      (∀ j, j < pos' → 1 ≤ j → e.readItemTag m' tgt j ≠ 65535) ∧
      (∀ j k, j < k → k < pos' → 1 ≤ j →
          e.readItemTag m' tgt j ≠ e.readItemTag m' tgt k)) := by
  intro n
  induction n with
  | zero => intro h; omega
  | succ i ih =>
    intro _ m pos m' pos' evs hpos hbound her hpref hdist heq
    simp only [EEPROM.rescueLoop] at heq
    by_cases hi : 1 ≤ i
    case neg =>
      rw [if_neg hi] at heq
      injection heq with h1 h2
      injection h2 with h2 h3
      subst h1; subst h2; subst h3
      refine ⟨⟨Nat.le_refl _, by omega⟩, ?_, her, ?_, ?_, hpref, hdist⟩
      · intro o hne; exact absurd rfl hne
      · intro τ w _ h; exact h
      · intro τ _ h
        have : i = 0 := by omega
        subst this
        rw [e.scanDesc_one]
        exact h
    case pos =>
      rw [if_pos hi] at heq
      have hposI : pos < e.pageItems := by omega
      have hiI : i ≤ e.pageItems - pos := by omega
      by_cases ht : e.readItemTag m src i = 65535
      · -- source item erased: skip
        rw [if_pos ht] at heq
        obtain ⟨ha, hb, hc, hd1, hd2, he, hf⟩ :=
          ih hi m pos m' pos' evs hpos (by omega) her hpref hdist heq
        refine ⟨⟨ha.1, by omega⟩, hb, hc, hd1, ?_, he, hf⟩
        intro τ hτ hnone
        rw [hd2 τ hτ hnone, e.scanDesc_succ m src τ 1 i hi, if_neg (by omega)]
      · rw [if_neg ht] at heq
        by_cases hfound : (e.search m tgt pos (e.readItemTag m src i)).isNone = true
        · -- tag absent from target: program it at pos
          rw [if_pos hfound] at heq
          have hnone : e.search m tgt pos (e.readItemTag m src i) = none :=
            Option.isNone_iff_eq_none.mp hfound
          have htlt : e.readItemTag m src i < 65536 := e.readItemTag_lt m src i
          have hdlt : e.readItemData m src i < 65536 := e.readItemData_lt m src i
          have habsent : ∀ j, j < pos → 1 ≤ j →
              e.readItemTag m tgt j ≠ e.readItemTag m src i := by
            rw [EEPROM.search] at hnone
            exact fun j hj h1j =>
              (e.scanDesc_eq_none_iff m tgt (e.readItemTag m src i) 1 pos).mp hnone j hj h1j
          rcases hres : e.rescueLoop src tgt
              (e.programItem m tgt pos (e.readItemTag m src i) (e.readItemData m src i)).1
              (pos+1) i with ⟨m2, pos2, evs2⟩
          rw [hres] at heq
          simp only [] at heq
          injection heq with h1 h2
          injection h2 with h2 h3
          subst h1; subst h2; subst h3
          -- the target prefix of the programmed state
          have hother : ∀ j, j < e.pageItems → j ≠ pos →
              e.readItem (e.programItem m tgt pos (e.readItemTag m src i)
                (e.readItemData m src i)).1 tgt j = e.readItem m tgt j := by
            intro j hj hne
            exact e.programItem_readItem_other m tgt pos _ _ tgt j hposI hj (Or.inr hne)
          have hsrcsame : ∀ j, j < e.pageItems →
              e.readItem (e.programItem m tgt pos (e.readItemTag m src i)
                (e.readItemData m src i)).1 src j = e.readItem m src j := by
            intro j hj
            exact e.programItem_readItem_other m tgt pos _ _ src j hposI hj (Or.inl hst)
          have her2 : ∀ j, j < e.pageItems → pos + 1 ≤ j →
              e.readItem (e.programItem m tgt pos (e.readItemTag m src i)
                (e.readItemData m src i)).1 tgt j = ERASED_ITEM := by
            intro j hj hpj
            rw [hother j hj (by omega)]
            exact her j hj (by omega)
          have hpref2 : ∀ j, j < pos + 1 → 1 ≤ j →
              e.readItemTag (e.programItem m tgt pos (e.readItemTag m src i)
                (e.readItemData m src i)).1 tgt j ≠ 65535 := by
            intro j hj h1j
            rcases Nat.lt_or_ge j pos with hjp | hjp
            · rw [e.readItemTag_congr m _ tgt j (hother j (by omega) (by omega))]
              exact hpref j hjp h1j
            · have hjpos : j = pos := by omega
              rw [hjpos, e.programItem_readItemTag_self m tgt pos _ _ htlt hdlt]
              exact ht
          have hdist2 : ∀ j k, j < k → k < pos + 1 → 1 ≤ j →
              e.readItemTag (e.programItem m tgt pos (e.readItemTag m src i)
                  (e.readItemData m src i)).1 tgt j ≠
                e.readItemTag (e.programItem m tgt pos (e.readItemTag m src i)
                  (e.readItemData m src i)).1 tgt k := by
            intro j k hjk hk h1j
            rcases Nat.lt_or_ge k pos with hkp | hkp
            · rw [e.readItemTag_congr m _ tgt j (hother j (by omega) (by omega)),
                  e.readItemTag_congr m _ tgt k (hother k (by omega) (by omega))]
              exact hdist j k hjk hkp h1j
            · have hkpos : k = pos := by omega
              rw [hkpos, e.readItemTag_congr m _ tgt j (hother j (by omega) (by omega)),
                  e.programItem_readItemTag_self m tgt pos _ _ htlt hdlt]
              exact habsent j (by omega) h1j
          obtain ⟨ha, hb, hc, hd1, hd2, he, hf⟩ :=
            ih hi _ (pos+1) m2 pos2 evs2 (by omega) (by omega) her2 hpref2 hdist2 hres
          -- relating searches through the programmed state
          have hstep_ne : ∀ τ, τ ≠ e.readItemTag m src i →
              e.search (e.programItem m tgt pos (e.readItemTag m src i)
                (e.readItemData m src i)).1 tgt (pos+1) τ = e.search m tgt pos τ := by
            intro τ hτt
            rw [EEPROM.search, EEPROM.search,
                e.scanDesc_succ _ tgt τ 1 pos (by omega),
                if_neg (by rw [e.programItem_readItemTag_self m tgt pos _ _ htlt hdlt]; omega)]
            exact e.scanDesc_congr_eq m _ tgt τ 1 pos
              (fun j hj h1j => hother j (by omega) (by omega))
          refine ⟨⟨by omega, by omega⟩, ?_, hc, ?_, ?_, he, hf⟩
          · -- frame
            intro o hchg
            by_cases hP : m2 o = (e.programItem m tgt pos (e.readItemTag m src i)
                (e.readItemData m src i)).1 o
            · have hPm : (e.programItem m tgt pos (e.readItemTag m src i)
                  (e.readItemData m src i)).1 o ≠ m o := by
                rw [← hP]; exact hchg
              by_cases h0 : o = e.itemOffset tgt pos
              · exact ⟨pos, Nat.le_refl _, by omega, Or.inl h0⟩
              · by_cases h2 : o = e.itemOffset tgt pos + 2
                · exact ⟨pos, Nat.le_refl _, by omega, Or.inr h2⟩
                · exact absurd (e.programItem_frame m tgt pos _ _ o h0 h2) hPm
            · obtain ⟨j, hj1, hj2, hj3⟩ := hb o hP
              exact ⟨j, by omega, hj2, hj3⟩
          · -- preservation of present tags
            intro τ w hτ hsome
            have hτt : τ ≠ e.readItemTag m src i := by
              intro hceq
              rw [hceq, hnone] at hsome
              exact absurd hsome (by simp)
            exact hd1 τ w hτ (by rw [hstep_ne τ hτt]; exact hsome)
          · -- absent tags realize the source scan
            intro τ hτ hnone2
            by_cases hτt : τ = e.readItemTag m src i
            · subst hτt
              have hsP : e.search (e.programItem m tgt pos (e.readItemTag m src i)
                  (e.readItemData m src i)).1 tgt (pos+1) (e.readItemTag m src i) =
                  some (e.readItemData m src i) := by
                rw [EEPROM.search, e.scanDesc_succ _ tgt _ 1 pos (by omega),
                    if_pos (e.programItem_readItemTag_self m tgt pos _ _ htlt hdlt),
                    e.programItem_readItemData_self m tgt pos _ _ htlt hdlt]
              rw [hd1 _ _ hτ hsP, e.scanDesc_succ m src _ 1 i hi, if_pos rfl]
            · have hsP : e.search (e.programItem m tgt pos (e.readItemTag m src i)
                  (e.readItemData m src i)).1 tgt (pos+1) τ = none := by
                rw [hstep_ne τ hτt]; exact hnone2
              rw [hd2 τ hτ hsP,
                  e.scanDesc_congr_eq m _ src τ 1 i
                    (fun j hj h1j => hsrcsame j (by omega)),
                  e.scanDesc_succ m src τ 1 i hi, if_neg (by omega)]
        · -- tag already present in target: skip
          rw [if_neg hfound] at heq
          have hsome : ∃ w, e.search m tgt pos (e.readItemTag m src i) = some w := by
            cases hs : e.search m tgt pos (e.readItemTag m src i)
            · rw [hs] at hfound; exact absurd rfl hfound
            · exact ⟨_, rfl⟩
          obtain ⟨ha, hb, hc, hd1, hd2, he, hf⟩ :=
            ih hi m pos m' pos' evs hpos (by omega) her hpref hdist heq
          refine ⟨⟨ha.1, by omega⟩, hb, hc, hd1, ?_, he, hf⟩
          intro τ hτ hnone
          have hτt : τ ≠ e.readItemTag m src i := by
            intro hceq
            obtain ⟨w, hw⟩ := hsome
            rw [← hceq, hnone] at hw
            exact absurd hw (by simp)
          rw [hd2 τ hτ hnone, e.scanDesc_succ m src τ 1 i hi, if_neg (by omega)]

/-- The page status is determined by item 0. -/
theorem EEPROM.pageStatus_of_readItem_eq (e : EEPROM) (m m' : Mem) (q : Nat)
    (h : e.readItem m' q 0 = e.readItem m q 0) :
    e.pageStatus m' q = e.pageStatus m q := by
  rw [EEPROM.readItem, EEPROM.readItem] at h
  have h1 := fread_lt m' (e.itemOffset q 0)
  have h2 := fread_lt m (e.itemOffset q 0)
  have h3 := fread_lt m' (e.itemOffset q 0 + 2)
  have h4 := fread_lt m (e.itemOffset q 0 + 2)
  rw [EEPROM.pageStatus, EEPROM.pageStatus, EEPROM.pageOffset]
  omega

/-- Reads of pages other than the target are unaffected by a memory
change confined to target items. -/
theorem EEPROM.readItem_of_tgt_frame (e : EEPROM) (m m' : Mem) (tgt lo hi : Nat)
    (hhi : hi ≤ e.pageItems)
    (hb : ∀ o, m' o ≠ m o → ∃ j, lo ≤ j ∧ j < hi ∧
      (o = e.itemOffset tgt j ∨ o = e.itemOffset tgt j + 2))
    (q i : Nat) (hq : q ≠ tgt) (hiI : i < e.pageItems) :
    e.readItem m' q i = e.readItem m q i := by
  apply e.readItem_congr_mem
  · by_cases hh : m' (e.itemOffset q i) = m (e.itemOffset q i)
    · exact hh
    · obtain ⟨j, hj1, hj2, hj3⟩ := hb _ hh
      rcases hj3 with hj3 | hj3
      · exact absurd hj3 ((e.itemOffset_sep q i tgt j hiI (by omega) (Or.inl hq)).1)
      · exact absurd hj3 (e.itemOffset_ne_add_two q i tgt j)
  · by_cases hh : m' (e.itemOffset q i + 2) = m (e.itemOffset q i + 2)
    · exact hh
    · obtain ⟨j, hj1, hj2, hj3⟩ := hb _ hh
      rcases hj3 with hj3 | hj3
      · exact absurd hj3.symm (e.itemOffset_ne_add_two tgt j q i)
      · exact absurd hj3 ((e.itemOffset_sep q i tgt j hiI (by omega) (Or.inl hq)).2.2.2)

/-- Full specification of `rescue_if_full` on a full source page with an
erased target page: the target receives each live tag exactly once (the
whole-page search of the target afterwards agrees with the whole-page
search of the source before), the copied prefix is consecutive from slot
1 with pairwise distinct tags, the target is marked active, the source
is erased, other pages are untouched, and the marker write strictly
precedes the source page erase in the emitted trace. -/
theorem EEPROM.rescueIfFull_spec (e : EEPROM) (m : Mem) (src tgt : Nat)
    (hWF : e.pageItems * ITEM_SIZE = e.params.pageSize * 1024)
    (hN : 2 ≤ e.params.pageCount) (hI : 2 ≤ e.pageItems)
    (hsrc : src < e.params.pageCount)
    (htgtdef : tgt = if src = e.params.pageCount - 1 then 0 else src + 1)
    (hfull : ¬ e.readItem m src (e.pageItems - 1) = ERASED_ITEM)
    (her : ∀ i, i < e.pageItems → 1 ≤ i → e.readItem m tgt i = ERASED_ITEM) :
    ∀ res m3 evs, e.rescueIfFull m src = (res, m3, evs) →
      (res = tgt ∧
      (∀ τ, τ ≠ 65535 →
        e.search m3 tgt e.pageItems τ = e.search m src e.pageItems τ) ∧
      (∃ tp, 1 ≤ tp ∧ tp ≤ e.pageItems ∧
        (∀ j, j < e.pageItems → tp ≤ j → e.readItem m3 tgt j = ERASED_ITEM) ∧
        (∀ j, j < tp → 1 ≤ j → e.readItem m3 tgt j ≠ ERASED_ITEM) ∧
        (∀ j k, j < k → k < tp → 1 ≤ j →
          e.readItemTag m3 tgt j ≠ e.readItemTag m3 tgt k)) ∧
      e.pageStatus m3 tgt = ACTIVE_PAGE_MARKER ∧
      (∀ i, i < e.pageItems → e.readItem m3 src i = ERASED_ITEM) ∧
      e.pageStatus m3 src = 65535 ∧
      (∀ q, q ≠ src → q ≠ tgt →
        (∀ i, i < e.pageItems → e.readItem m3 q i = e.readItem m q i) ∧
        e.pageStatus m3 q = e.pageStatus m q) ∧
      (∃ (k1 k2 : Nat), k1 < k2 ∧
        evs[k1]? = some (Ev.wr (e.pageOffset tgt) ACTIVE_PAGE_MARKER) ∧
        evs[k2]? = some (Ev.er (e.pageOffset src)))) := by
  have hst : src ≠ tgt := by
    rw [htgtdef]
    by_cases hc : src = e.params.pageCount - 1
    · rw [if_pos hc]; omega
    · rw [if_neg hc]; omega
  rcases hloop : e.rescueLoop src tgt m 1 e.pageItems with ⟨m1, pos1, evs1⟩
  obtain ⟨⟨ha1, ha2⟩, hb, hc, hd1, hd2, he, hf⟩ :=
    e.rescueLoop_spec src tgt hst e.pageItems (by omega) m 1 m1 pos1 evs1
      (by omega) (by omega) (fun j hj h1j => her j hj h1j)
      (by intro j hj h1j; omega) (by intro j k hjk hk h1j; omega) hloop
  -- the source page is untouched by the loop
  have hsrcread : ∀ i, i < e.pageItems → e.readItem m1 src i = e.readItem m src i :=
    fun i hi => e.readItem_of_tgt_frame m m1 tgt 1 pos1 (by omega) hb src i hst hi
  -- the loop does not touch any marker
  have hstat : ∀ q, e.pageStatus m1 q = e.pageStatus m q := by
    intro q
    apply e.pageStatus_of_readItem_eq
    apply e.readItem_congr_mem
    · by_cases hh : m1 (e.itemOffset q 0) = m (e.itemOffset q 0)
      · exact hh
      · obtain ⟨j, hj1, hj2, hj3⟩ := hb _ hh
        rcases hj3 with hj3 | hj3
        · exact absurd hj3 ((e.itemOffset_sep q 0 tgt j (by omega) (by omega)
            (Or.inr (by omega))).1)
        · exact absurd hj3 (e.itemOffset_ne_add_two q 0 tgt j)
    · by_cases hh : m1 (e.itemOffset q 0 + 2) = m (e.itemOffset q 0 + 2)
      · exact hh
      · obtain ⟨j, hj1, hj2, hj3⟩ := hb _ hh
        rcases hj3 with hj3 | hj3
        · exact absurd hj3.symm (e.itemOffset_ne_add_two tgt j q 0)
        · exact absurd hj3 ((e.itemOffset_sep q 0 tgt j (by omega) (by omega)
            (Or.inr (by omega))).2.2.2)
  -- the marker write keeps all items with index at least 1 intact
  have hm2item : ∀ q j, j < e.pageItems → 1 ≤ j →
      e.readItem (e.setPageStatus m1 tgt ACTIVE_PAGE_MARKER).1 q j = e.readItem m1 q j :=
    fun q j hj h1j =>
      e.setPageStatus_readItem m1 tgt ACTIVE_PAGE_MARKER q j (by omega) hj (Or.inr (by omega))
  -- the source is dirty when the marker is flipped
  have hdirty : e.isPageDirty (e.setPageStatus m1 tgt ACTIVE_PAGE_MARKER).1 src = true := by
    apply e.isPageDirty_eq_true _ src (e.pageItems - 1) (by omega)
    rw [hm2item src (e.pageItems - 1) (by omega) (by omega),
        hsrcread (e.pageItems - 1) (by omega)]
    exact hfull
  have hers : e.erasePage (e.setPageStatus m1 tgt ACTIVE_PAGE_MARKER).1 src =
      (ferase (e.setPageStatus m1 tgt ACTIVE_PAGE_MARKER).1 (e.pageOffset src)
        (e.params.pageSize * 1024), [Ev.er (e.pageOffset src)]) := by
    rw [EEPROM.erasePage, if_pos hdirty]
  have hres : e.rescueIfFull m src =
      (tgt,
       (ferase (e.setPageStatus m1 tgt ACTIVE_PAGE_MARKER).1 (e.pageOffset src)
         (e.params.pageSize * 1024)),
       evs1 ++ [Ev.wr (e.pageOffset tgt) ACTIVE_PAGE_MARKER] ++ [Ev.er (e.pageOffset src)]) := by
    simp only [EEPROM.rescueIfFull, if_neg hfull]
    rw [← htgtdef, hloop, hers]
    rfl
  intro res m3 evs heq
  rw [hres] at heq
  injection heq with h1 h2
  injection h2 with h2 h3
  subst h1; subst h2; subst h3
  -- items of the final memory
  have hm3tgt : ∀ j, j < e.pageItems → 1 ≤ j →
      e.readItem ((ferase (e.setPageStatus m1 tgt ACTIVE_PAGE_MARKER).1 (e.pageOffset src)
        (e.params.pageSize * 1024))) tgt j = e.readItem m1 tgt j := by
    intro j hj h1j
    have hout : e.readItem ((e.erasePage (e.setPageStatus m1 tgt ACTIVE_PAGE_MARKER).1 src).1)
        tgt j = e.readItem (e.setPageStatus m1 tgt ACTIVE_PAGE_MARKER).1 tgt j :=
      e.erasePage_readItem_other _ src tgt j hWF hj (Ne.symm hst)
    rw [hers] at hout
    exact hout.trans (hm2item tgt j hj h1j)
  have hm3q : ∀ q, q ≠ src → q ≠ tgt → ∀ i, i < e.pageItems →
      e.readItem ((ferase (e.setPageStatus m1 tgt ACTIVE_PAGE_MARKER).1 (e.pageOffset src)
        (e.params.pageSize * 1024))) q i = e.readItem m q i := by
    intro q hqs hqt i hi
    have hout : e.readItem ((e.erasePage (e.setPageStatus m1 tgt ACTIVE_PAGE_MARKER).1 src).1)
        q i = e.readItem (e.setPageStatus m1 tgt ACTIVE_PAGE_MARKER).1 q i :=
      e.erasePage_readItem_other _ src q i hWF hi hqs
    rw [hers] at hout
    refine Eq.trans hout ?_
    rcases Nat.lt_or_ge i 1 with hi1 | hi1
    · have : i = 0 := by omega
      subst this
      rw [e.setPageStatus_readItem m1 tgt ACTIVE_PAGE_MARKER q 0 (by omega) hi (Or.inl hqt)]
      exact e.readItem_of_tgt_frame m m1 tgt 1 pos1 (by omega) hb q 0 hqt hi
    · rw [hm2item q i hi hi1]
      exact e.readItem_of_tgt_frame m m1 tgt 1 pos1 (by omega) hb q i hqt hi
  refine ⟨rfl, ?_, ?_, ?_, ?_, ?_, ?_, ?_⟩
  · -- whole-page search of the target agrees with the source
    intro τ hτ
    have hstart : e.search m tgt 1 τ = none := e.scanDesc_one m tgt τ
    have hmain : e.search m1 tgt pos1 τ = e.scanDesc m src τ 1 e.pageItems :=
      hd2 τ hτ hstart
    rw [EEPROM.search, EEPROM.search]
    have hcongr : e.scanDesc (ferase (e.setPageStatus m1 tgt ACTIVE_PAGE_MARKER).1
        (e.pageOffset src) (e.params.pageSize * 1024)) tgt τ 1 e.pageItems =
        e.scanDesc m1 tgt τ 1 e.pageItems :=
      e.scanDesc_congr_eq _ _ tgt τ 1 e.pageItems (fun j hj h1j => hm3tgt j hj h1j)
    rw [hcongr]
    rw [e.scanDesc_drop_top m1 tgt τ 1 pos1 e.pageItems (by omega) ?htop]
    · exact hmain
    case htop =>
      intro j hj hpj
      rw [e.readItemTag_of_erased m1 tgt j (hc j hj hpj)]
      omega
  · -- prefix shape of the target
    refine ⟨pos1, by omega, by omega, ?_, ?_, ?_⟩
    · intro j hj hpj
      rw [hm3tgt j hj (by omega)]
      exact hc j hj hpj
    · intro j hj h1j
      rw [hm3tgt j (by omega) h1j]
      exact e.readItem_ne_erased_of_tag m1 tgt j (he j hj h1j)
    · intro j k hjk hk h1j
      have hcj : e.readItem _ tgt j = e.readItem m1 tgt j := hm3tgt j (by omega) (by omega)
      have hck : e.readItem _ tgt k = e.readItem m1 tgt k := hm3tgt k (by omega) (by omega)
      rw [e.readItemTag_congr _ _ tgt j hcj, e.readItemTag_congr _ _ tgt k hck]
      exact hf j k hjk hk h1j
  · -- target marked active
    have h1 : e.pageStatus ((e.erasePage (e.setPageStatus m1 tgt ACTIVE_PAGE_MARKER).1 src).1)
        tgt = e.pageStatus (e.setPageStatus m1 tgt ACTIVE_PAGE_MARKER).1 tgt :=
      e.erasePage_pageStatus_other _ src tgt hWF (by omega) (Ne.symm hst)
    rw [hers] at h1
    exact h1.trans (e.setPageStatus_pageStatus_self m1 tgt ACTIVE_PAGE_MARKER)
  · -- source erased
    intro i hi
    have h1 := e.erasePage_readItem_self (e.setPageStatus m1 tgt ACTIVE_PAGE_MARKER).1 src i
      hWF hi
    rw [hers] at h1
    exact h1
  · -- source marker erased
    have h1 := e.erasePage_pageStatus_self (e.setPageStatus m1 tgt ACTIVE_PAGE_MARKER).1 src
      hWF (by omega)
    rw [hers] at h1
    exact h1
  · -- other pages untouched
    intro q hqs hqt
    refine ⟨fun i hi => hm3q q hqs hqt i hi, ?_⟩
    apply e.pageStatus_of_readItem_eq
    exact hm3q q hqs hqt 0 (by omega)
  · -- marker write precedes source erase in the trace
    refine ⟨evs1.length, evs1.length + 1, by omega, ?_, ?_⟩
    · rw [List.append_assoc, List.getElem?_append_right (by omega)]
      simp
    · rw [List.append_assoc, List.getElem?_append_right (by omega)]
      have : evs1.length + 1 - evs1.length = 1 := by omega
      rw [this]
      simp

/-- A page whose item 0 is erased is not marked active. -/
theorem EEPROM.pageStatus_of_erased (e : EEPROM) (m : Mem) (q : Nat)
    (h : e.readItem m q 0 = ERASED_ITEM) : e.pageStatus m q = 65535 := by
  rw [e.readItem_erased_iff] at h
  rw [EEPROM.pageStatus, EEPROM.pageOffset]
  exact h.1

theorem EEPROM.findActiveGo_congr (e : EEPROM) (m m' : Mem) :
    ∀ fuel start, (∀ q, q < start + fuel → start ≤ q →
      e.pageStatus m' q = e.pageStatus m q) →
    e.findActiveGo m' start fuel = e.findActiveGo m start fuel := by
  intro fuel
  induction fuel with
  | zero => intro start _; rfl
  | succ f ih =>
    intro start h
    have hq := h start (by omega) (Nat.le_refl _)
    by_cases hs : e.pageStatus m start = ACTIVE_PAGE_MARKER
    · simp only [EEPROM.findActiveGo, if_pos hs, if_pos (hq.trans hs ▸ hq.trans hs)]
      rw [if_pos (by rw [hq]; exact hs)]
    · rw [EEPROM.findActiveGo, EEPROM.findActiveGo, if_neg (by rw [hq]; exact hs), if_neg hs]
      exact ih (start + 1) (fun q hq1 hq2 => h q (by omega) (by omega))

/-- When the last item of the page is erased, `rescue_if_full` is the
identity. -/
theorem EEPROM.rescueIfFull_not_full (e : EEPROM) (m : Mem) (src : Nat)
    (h : e.readItem m src (e.pageItems - 1) = ERASED_ITEM) :
    e.rescueIfFull m src = (src, m, []) := by
  rw [EEPROM.rescueIfFull, if_pos h]

/-- A search hits the highest-indexed slot carrying the tag. -/
theorem EEPROM.search_hit (e : EEPROM) (m : Mem) (page n τ s : Nat)
    (h1 : 1 ≤ s) (h2 : s < n) (htag : e.readItemTag m page s = τ)
    (htop : ∀ j, j < n → s < j → e.readItemTag m page j ≠ τ) :
    e.search m page n τ = some (e.readItemData m page s) := by
  rw [EEPROM.search, e.scanDesc_eq_some_iff]
  exact ⟨s, h2, h1, htag, rfl, htop⟩

/-- `read` reduces to a search of the active page for a legal tag. -/
theorem EEPROM.read_eq_search (e : EEPROM) (m : Mem) (τ A : Nat)
    (hτ : τ &&& 32768 = 0) (hfa : e.findActive m = some A) :
    e.read m τ = some (e.search m A e.pageItems τ) := by
  simp only [EEPROM.read, hτ, hfa, ne_eq, not_true_eq_false, not_false_eq_true,
    if_false, if_true]

/-- Validity bounds the geometry: at least 256 items per page. -/
theorem EEPROM.valid_items (e : EEPROM) (hV : e.Valid) : 256 ≤ e.pageItems := by
  obtain ⟨hN, hS, hWF⟩ := hV
  simp only [ITEM_SIZE] at hWF
  omega

/-- Unfolding of a successful non-compacting `write`. -/
theorem EEPROM.write_eq_not_full (e : EEPROM) (m : Mem) (T V A s : Nat)
    (hT : T &&& 32768 = 0) (hfa : e.findActive m = some A)
    (hnf : e.readItem m A (e.pageItems - 1) = ERASED_ITEM)
    (hff : e.findFree m A = some s) :
    e.write m T V = some ((e.programItem m A s T V).1, (e.programItem m A s T V).2) := by
  simp only [EEPROM.write, hT, hfa, e.rescueIfFull_not_full m A hnf, hff,
    ne_eq, not_true_eq_false, not_false_eq_true, if_false, List.nil_append]

/-- C1: for every tag in `0x0000..=0x7FFF` and every 16-bit value, from
any flash state satisfying the format invariants in which `write(T, V)`
returns successfully, a subsequent `read(T)` returns `Some(V)`. -/
theorem claim_c1 (e : EEPROM) (m : Mem) (T V : Nat)
    (hV : e.Valid) (hInv : e.Inv m) (hT : T ≤ 32767) (hVal : V < 65536)
    (hs : (e.write m T V).isSome = true) :
    e.read ((e.write m T V).get hs).1 T = some (some V) := by
  obtain ⟨hN, hS, hWF⟩ := hV
  have hI : 256 ≤ e.pageItems := e.valid_items ⟨hN, hS, hWF⟩
  obtain ⟨A, hA, hAact, hOther, k, hk1, hk2, hkW, hkE⟩ := hInv
  have hT16 : T < 65536 := by omega
  have hland : T &&& 32768 = 0 := land_reserved_eq_zero T (by omega)
  have hlow : ∀ q, q < A → e.pageStatus m q ≠ ACTIVE_PAGE_MARKER := by
    intro q hq
    rw [e.pageStatus_of_erased m q (hOther q (by omega) (by omega) 0 (by omega))]
    simp [ACTIVE_PAGE_MARKER]
  have hfa : e.findActive m = some A := e.findActive_eq_some m A hA hAact hlow
  by_cases hnf : e.readItem m A (e.pageItems - 1) = ERASED_ITEM
  · -- no compaction: program into the first free slot k
    have hkI : k ≤ e.pageItems - 1 := by
      by_contra hcon
      exact (hkW (e.pageItems - 1) (by omega) (by omega)) hnf
    have hff : e.findFree m A = some k := by
      rw [EEPROM.findFree, e.findFreeGo_eq_some_iff]
      exact ⟨by omega, by omega, hkE k (by omega) (by omega),
        fun j hj h1j => hkW j hj h1j⟩
    have hwr := e.write_eq_not_full m T V A k hland hfa hnf hff
    have hget : (e.write m T V).get hs =
        ((e.programItem m A k T V).1, (e.programItem m A k T V).2) := by
      simp [hwr]
    rw [hget]
    have hfa2 : e.findActive (e.programItem m A k T V).1 = some A := by
      rw [EEPROM.findActive,
        e.findActiveGo_congr m _ e.params.pageCount 0
          (fun q _ _ => e.programItem_pageStatus m A k T V q (by omega) (by omega))]
      exact hfa
    rw [e.read_eq_search _ T A hland hfa2]
    have hdata : e.readItemData (e.programItem m A k T V).1 A k = V :=
      e.programItem_readItemData_self m A k T V hT16 hVal
    have hsearch := e.search_hit (e.programItem m A k T V).1 A e.pageItems T k
      (by omega) (by omega) (e.programItem_readItemTag_self m A k T V hT16 hVal) ?htop
    case htop =>
      intro j hj hkj
      rw [e.readItemTag_congr m _ A j
        (e.programItem_readItem_other m A k T V A j (by omega) hj (Or.inr (by omega)))]
      rw [e.readItemTag_of_erased m A j (hkE j hj (by omega))]
      omega
    rw [hdata] at hsearch
    rw [hsearch]
  · -- compaction into the next page, then program into its next slot
    obtain ⟨tgt, htgtdef⟩ : ∃ t, t = if A = e.params.pageCount - 1 then 0 else A + 1 :=
      ⟨_, rfl⟩
    have htgt_lt : tgt < e.params.pageCount := by
      rw [htgtdef]
      by_cases hc : A = e.params.pageCount - 1
      · rw [if_pos hc]; omega
      · rw [if_neg hc]; omega
    have htgt_ne : tgt ≠ A := by
      rw [htgtdef]
      by_cases hc : A = e.params.pageCount - 1
      · rw [if_pos hc]; omega
      · rw [if_neg hc]; omega
    have her : ∀ i, i < e.pageItems → 1 ≤ i → e.readItem m tgt i = ERASED_ITEM :=
      fun i hi _ => hOther tgt htgt_lt htgt_ne i hi
    rcases hrs : e.rescueIfFull m A with ⟨res, m3, evs⟩
    obtain ⟨hres, hpres, ⟨tp, htp1, htp2, htail, hpref, hdst⟩, hstat_tgt, hsrc_er,
        hstat_src, hothers, htrace⟩ :=
      e.rescueIfFull_spec m A tgt hWF hN (by omega) hA htgtdef hnf her res m3 evs hrs
    subst res
    have hff2 : e.findFree m3 tgt = some tp := by
      rcases Nat.lt_or_ge tp e.pageItems with htpI | htpI
      · rw [EEPROM.findFree, e.findFreeGo_eq_some_iff]
        exact ⟨by omega, by omega, htail tp (by omega) (by omega),
          fun j hj h1j => hpref j hj h1j⟩
      · -- the target came out full: the write would have panicked
        exfalso
        have hffn : e.findFree m3 tgt = none := by
          rw [EEPROM.findFree, e.findFreeGo_eq_none_iff]
          intro j hj h1j
          exact hpref j (by omega) h1j
        have hwn : e.write m T V = none := by
          simp only [EEPROM.write, hland, hfa, hrs, hffn, ne_eq,
            not_true_eq_false, not_false_eq_true, if_false]
        rw [hwn] at hs
        simp at hs
    have hwr : e.write m T V =
        some ((e.programItem m3 tgt tp T V).1, evs ++ (e.programItem m3 tgt tp T V).2) := by
      simp only [EEPROM.write, hland, hfa, hrs, hff2, ne_eq,
        not_true_eq_false, not_false_eq_true, if_false]
    have hget : (e.write m T V).get hs =
        ((e.programItem m3 tgt tp T V).1, evs ++ (e.programItem m3 tgt tp T V).2) := by
      simp [hwr]
    rw [hget]
    have htpI : tp < e.pageItems := by
      have := (e.findFreeGo_eq_some_iff m3 tgt (e.pageItems - 1) 1 tp).mp hff2
      omega
    have hfa2 : e.findActive (e.programItem m3 tgt tp T V).1 = some tgt := by
      rw [EEPROM.findActive,
        e.findActiveGo_congr m3 _ e.params.pageCount 0
          (fun q _ _ => e.programItem_pageStatus m3 tgt tp T V q (by omega) (by omega))]
      apply e.findActive_eq_some m3 tgt htgt_lt hstat_tgt
      intro q hq
      by_cases hqA : q = A
      · rw [hqA, hstat_src]
        simp [ACTIVE_PAGE_MARKER]
      · rw [(hothers q hqA (by omega)).2,
          e.pageStatus_of_erased m q (hOther q (by omega) hqA 0 (by omega))]
        simp [ACTIVE_PAGE_MARKER]
    rw [e.read_eq_search _ T tgt hland hfa2]
    have hdata : e.readItemData (e.programItem m3 tgt tp T V).1 tgt tp = V :=
      e.programItem_readItemData_self m3 tgt tp T V hT16 hVal
    have hsearch := e.search_hit (e.programItem m3 tgt tp T V).1 tgt e.pageItems T tp
      (by omega) (by omega) (e.programItem_readItemTag_self m3 tgt tp T V hT16 hVal) ?htop2
    case htop2 =>
      intro j hj hkj
      rw [e.readItemTag_congr m3 _ tgt j
        (e.programItem_readItem_other m3 tgt tp T V tgt j (by omega) hj (Or.inr (by omega)))]
      rw [e.readItemTag_of_erased m3 tgt j (htail j hj (by omega))]
      omega
    rw [hdata] at hsearch
    rw [hsearch]

/-- The programmed tag half-word does not depend on the data value. -/
theorem EEPROM.programItem_readItemTag_raw (e : EEPROM) (m : Mem) (page pos tag dat : Nat)
    (ht : tag < 65536) :
    e.readItemTag (e.programItem m page pos tag dat).1 page pos = tag := by
  rw [EEPROM.readItemTag_eq_fread, e.programItem_mem, fread_fwrite_self]
  omega

/-- C2: for a legal tag, `read` returns the data half-word of the
highest-indexed written slot of the active page whose tag matches, and
`None` exactly when no data slot of the active page carries the tag. -/
theorem claim_c2 (e : EEPROM) (m : Mem) (A T : Nat)
    (hT : T ≤ 32767) (hfa : e.findActive m = some A) :
    (∀ w, e.read m T = some (some w) ↔
      ∃ j, 1 ≤ j ∧ j < e.pageItems ∧ e.readItemTag m A j = T ∧
        e.readItem m A j ≠ ERASED_ITEM ∧ e.readItemData m A j = w ∧
        ∀ i, i < e.pageItems → j < i → e.readItemTag m A i ≠ T) ∧
    (e.read m T = some none ↔
      ∀ j, j < e.pageItems → 1 ≤ j → e.readItemTag m A j ≠ T) := by
  have hland : T &&& 32768 = 0 := land_reserved_eq_zero T (by omega)
  rw [e.read_eq_search m T A hland hfa]
  constructor
  · intro w
    rw [Option.some_inj, EEPROM.search, e.scanDesc_eq_some_iff]
    constructor
    · rintro ⟨j, hj, h1j, htag, hdata, htop⟩
      refine ⟨j, h1j, hj, htag, ?_, hdata, htop⟩
      apply e.readItem_ne_erased_of_tag
      rw [htag]
      omega
    · rintro ⟨j, h1j, hj, htag, _, hdata, htop⟩
      exact ⟨j, hj, h1j, htag, hdata, htop⟩
  · rw [Option.some_inj, EEPROM.search, e.scanDesc_eq_none_iff]

/-- C10: a successful write that does not trigger compaction programs
`(V << 16) | T` into the lowest-indexed erased data slot of the active
page and leaves every other half-word of the region untouched (so a
rewrite of an unchanged value still consumes a fresh slot). -/
theorem claim_c10 (e : EEPROM) (m : Mem) (A T V : Nat)
    (hfa : e.findActive m = some A) (hT : T ≤ 32767) (hV16 : V < 65536)
    (hnf : e.readItem m A (e.pageItems - 1) = ERASED_ITEM)
    (hs : (e.write m T V).isSome = true) :
    ∃ s, e.findFree m A = some s ∧ 1 ≤ s ∧ s < e.pageItems ∧
      e.readItem m A s = ERASED_ITEM ∧
      (∀ j, j < s → 1 ≤ j → e.readItem m A j ≠ ERASED_ITEM) ∧
      e.readItem ((e.write m T V).get hs).1 A s = V * 65536 + T ∧
      ∀ o, o ≠ e.itemOffset A s → o ≠ e.itemOffset A s + 2 →
        ((e.write m T V).get hs).1 o = m o := by
  have hland : T &&& 32768 = 0 := land_reserved_eq_zero T (by omega)
  have hsome : ∃ s, e.findFree m A = some s := by
    cases hff : e.findFree m A with
    | none =>
      exfalso
      have hwn : e.write m T V = none := by
        simp only [EEPROM.write, hland, hfa, e.rescueIfFull_not_full m A hnf, hff,
          ne_eq, not_true_eq_false, not_false_eq_true, if_false]
      rw [hwn] at hs
      simp at hs
    | some s => exact ⟨s, rfl⟩
  obtain ⟨s, hff⟩ := hsome
  obtain ⟨hs1, hs2, hs3, hs4⟩ := (e.findFreeGo_eq_some_iff m A (e.pageItems - 1) 1 s).mp hff
  have hwr := e.write_eq_not_full m T V A s hland hfa hnf hff
  have hget : (e.write m T V).get hs =
      ((e.programItem m A s T V).1, (e.programItem m A s T V).2) := by
    simp [hwr]
  rw [hget]
  exact ⟨s, hff, hs1, by omega, hs3, fun j hj h1j => hs4 j hj h1j,
    e.programItem_readItem_self m A s T V (by omega) hV16,
    fun o h0 h2 => e.programItem_frame m A s T V o h0 h2⟩

/-- C6: a successful `write(T1, v)` — including one that triggers
compaction — does not change the value returned by `read(T2)` for any
other legal tag `T2`. -/
theorem claim_c6 (e : EEPROM) (m : Mem) (T1 T2 v : Nat)
    (hV : e.Valid) (hInv : e.Inv m) (hT1 : T1 ≤ 32767) (hT2 : T2 ≤ 32767)
    (hne : T2 ≠ T1) (hs : (e.write m T1 v).isSome = true) :
    e.read ((e.write m T1 v).get hs).1 T2 = e.read m T2 := by
  obtain ⟨hN, hS, hWF⟩ := hV
  have hI : 256 ≤ e.pageItems := e.valid_items ⟨hN, hS, hWF⟩
  obtain ⟨A, hA, hAact, hOther, k, hk1, hk2, hkW, hkE⟩ := hInv
  have hT116 : T1 < 65536 := by omega
  have hland : T1 &&& 32768 = 0 := land_reserved_eq_zero T1 (by omega)
  have hland2 : T2 &&& 32768 = 0 := land_reserved_eq_zero T2 (by omega)
  have hlow : ∀ q, q < A → e.pageStatus m q ≠ ACTIVE_PAGE_MARKER := by
    intro q hq
    rw [e.pageStatus_of_erased m q (hOther q (by omega) (by omega) 0 (by omega))]
    simp [ACTIVE_PAGE_MARKER]
  have hfa : e.findActive m = some A := e.findActive_eq_some m A hA hAact hlow
  rw [e.read_eq_search m T2 A hland2 hfa]
  by_cases hnf : e.readItem m A (e.pageItems - 1) = ERASED_ITEM
  · -- no compaction
    have hkI : k ≤ e.pageItems - 1 := by
      by_contra hcon
      exact (hkW (e.pageItems - 1) (by omega) (by omega)) hnf
    have hff : e.findFree m A = some k := by
      rw [EEPROM.findFree, e.findFreeGo_eq_some_iff]
      exact ⟨by omega, by omega, hkE k (by omega) (by omega),
        fun j hj h1j => hkW j hj h1j⟩
    have hwr := e.write_eq_not_full m T1 v A k hland hfa hnf hff
    have hget : (e.write m T1 v).get hs =
        ((e.programItem m A k T1 v).1, (e.programItem m A k T1 v).2) := by
      simp [hwr]
    rw [hget]
    have hfa2 : e.findActive (e.programItem m A k T1 v).1 = some A := by
      rw [EEPROM.findActive,
        e.findActiveGo_congr m _ e.params.pageCount 0
          (fun q _ _ => e.programItem_pageStatus m A k T1 v q (by omega) (by omega))]
      exact hfa
    rw [e.read_eq_search _ T2 A hland2 hfa2]
    rw [EEPROM.search, EEPROM.search]
    rw [e.scanDesc_congr m _ A T2 1 e.pageItems ?hcg]
    case hcg =>
      intro i hi h1i
      by_cases hik : i = k
      · subst hik
        have htpre : e.readItemTag m A i = 65535 :=
          e.readItemTag_of_erased m A i (hkE i (by omega) (by omega))
        have htpost : e.readItemTag (e.programItem m A i T1 v).1 A i = T1 :=
          e.programItem_readItemTag_raw m A i T1 v hT116
        constructor
        · rw [htpre, htpost]
          omega
        · rw [htpre]
          omega
      · have hr := e.programItem_readItem_other m A k T1 v A i (by omega) hi (Or.inr hik)
        exact ⟨by rw [e.readItemTag_congr m _ A i hr],
          fun _ => e.readItemData_congr m _ A i hr⟩
  · -- compaction
    obtain ⟨tgt, htgtdef⟩ : ∃ t, t = if A = e.params.pageCount - 1 then 0 else A + 1 :=
      ⟨_, rfl⟩
    have htgt_lt : tgt < e.params.pageCount := by
      rw [htgtdef]
      by_cases hc : A = e.params.pageCount - 1
      · rw [if_pos hc]; omega
      · rw [if_neg hc]; omega
    have htgt_ne : tgt ≠ A := by
      rw [htgtdef]
      by_cases hc : A = e.params.pageCount - 1
      · rw [if_pos hc]; omega
      · rw [if_neg hc]; omega
    have her : ∀ i, i < e.pageItems → 1 ≤ i → e.readItem m tgt i = ERASED_ITEM :=
      fun i hi _ => hOther tgt htgt_lt htgt_ne i hi
    rcases hrs : e.rescueIfFull m A with ⟨res, m3, evs⟩
    obtain ⟨hres, hpres, ⟨tp, htp1, htp2, htail, hpref, hdst⟩, hstat_tgt, hsrc_er,
        hstat_src, hothers, htrace⟩ :=
      e.rescueIfFull_spec m A tgt hWF hN (by omega) hA htgtdef hnf her res m3 evs hrs
    subst res
    have hff2 : e.findFree m3 tgt = some tp := by
      rcases Nat.lt_or_ge tp e.pageItems with htpI | htpI
      · rw [EEPROM.findFree, e.findFreeGo_eq_some_iff]
        exact ⟨by omega, by omega, htail tp (by omega) (by omega),
          fun j hj h1j => hpref j hj h1j⟩
      · exfalso
        have hffn : e.findFree m3 tgt = none := by
          rw [EEPROM.findFree, e.findFreeGo_eq_none_iff]
          intro j hj h1j
          exact hpref j (by omega) h1j
        have hwn : e.write m T1 v = none := by
          simp only [EEPROM.write, hland, hfa, hrs, hffn, ne_eq,
            not_true_eq_false, not_false_eq_true, if_false]
        rw [hwn] at hs
        simp at hs
    have hwr : e.write m T1 v =
        some ((e.programItem m3 tgt tp T1 v).1, evs ++ (e.programItem m3 tgt tp T1 v).2) := by
      simp only [EEPROM.write, hland, hfa, hrs, hff2, ne_eq,
        not_true_eq_false, not_false_eq_true, if_false]
    have hget : (e.write m T1 v).get hs =
        ((e.programItem m3 tgt tp T1 v).1, evs ++ (e.programItem m3 tgt tp T1 v).2) := by
      simp [hwr]
    rw [hget]
    have htpI : tp < e.pageItems := by
      have := (e.findFreeGo_eq_some_iff m3 tgt (e.pageItems - 1) 1 tp).mp hff2
      omega
    have hfa2 : e.findActive (e.programItem m3 tgt tp T1 v).1 = some tgt := by
      rw [EEPROM.findActive,
        e.findActiveGo_congr m3 _ e.params.pageCount 0
          (fun q _ _ => e.programItem_pageStatus m3 tgt tp T1 v q (by omega) (by omega))]
      apply e.findActive_eq_some m3 tgt htgt_lt hstat_tgt
      intro q hq
      by_cases hqA : q = A
      · rw [hqA, hstat_src]
        simp [ACTIVE_PAGE_MARKER]
      · rw [(hothers q hqA (by omega)).2,
          e.pageStatus_of_erased m q (hOther q (by omega) hqA 0 (by omega))]
        simp [ACTIVE_PAGE_MARKER]
    rw [e.read_eq_search _ T2 tgt hland2 hfa2]
    rw [show e.search (e.programItem m3 tgt tp T1 v).1 tgt e.pageItems T2 =
        e.search m3 tgt e.pageItems T2 from ?hstep]
    case hstep =>
      rw [EEPROM.search, EEPROM.search]
      apply e.scanDesc_congr
      intro i hi h1i
      by_cases hik : i = tp
      · subst hik
        have htpre : e.readItemTag m3 tgt i = 65535 :=
          e.readItemTag_of_erased m3 tgt i (htail i (by omega) (by omega))
        have htpost : e.readItemTag (e.programItem m3 tgt i T1 v).1 tgt i = T1 :=
          e.programItem_readItemTag_raw m3 tgt i T1 v hT116
        constructor
        · rw [htpre, htpost]
          omega
        · rw [htpre]
          omega
      · have hr := e.programItem_readItem_other m3 tgt tp T1 v tgt i (by omega) hi (Or.inr hik)
        exact ⟨by rw [e.readItemTag_congr m3 _ tgt i hr],
          fun _ => e.readItemData_congr m3 _ tgt i hr⟩
    rw [hpres T2 (by omega)]

theorem EEPROM.GoodTrace_nil (e : EEPROM) : e.GoodTrace [] := by
  intro k p i v _ _ hk
  simp at hk

theorem EEPROM.GoodTrace_append (e : EEPROM) (a b : List Ev)
    (ha : e.GoodTrace a) (hb : e.GoodTrace b) : e.GoodTrace (a ++ b) := by
  intro k p i v hi h1i hk
  rcases Nat.lt_or_ge k a.length with hka | hka
  · rw [List.getElem?_append_left hka] at hk
    obtain ⟨q, d, hq1, hq2⟩ := ha k p i v hi h1i hk
    exact ⟨q, d, hq1, by rw [List.getElem?_append_left (by omega)]; exact hq2⟩
  · rw [List.getElem?_append_right hka] at hk
    obtain ⟨q, d, hq1, hq2⟩ := hb (k - a.length) p i v hi h1i hk
    refine ⟨a.length + q, d, by omega, ?_⟩
    rw [List.getElem?_append_right (by omega)]
    rw [show a.length + q - a.length = q by omega]
    exact hq2

/-- The two-event trace of `program_item` is well ordered: its data
half-word write precedes its tag half-word write. -/
theorem EEPROM.GoodTrace_program (e : EEPROM) (page pos tag dat : Nat) :
    e.GoodTrace [Ev.wr (e.itemOffset page pos + 2) dat, Ev.wr (e.itemOffset page pos) tag] := by
  intro k p i v hi h1i hk
  match k with
  | 0 =>
    simp only [List.getElem?_cons_zero, Option.some_inj, Ev.wr.injEq] at hk
    exact absurd hk.1.symm (e.itemOffset_ne_add_two p i page pos)
  | 1 =>
    simp only [List.getElem?_cons_succ, List.getElem?_cons_zero, Option.some_inj,
      Ev.wr.injEq] at hk
    refine ⟨0, dat, by omega, ?_⟩
    rw [← hk.1]
    rfl
  | n+2 => simp at hk

/-- A page-marker write alone is a well-ordered trace: a marker is never
a data-slot tag offset. -/
theorem EEPROM.GoodTrace_marker (e : EEPROM) (page s : Nat) :
    e.GoodTrace [Ev.wr (e.pageOffset page) s] := by
  intro k p i v hi h1i hk
  match k with
  | 0 =>
    simp only [List.getElem?_cons_zero, Option.some_inj, Ev.wr.injEq] at hk
    exact absurd hk.1.symm
      ((e.itemOffset_sep p i page 0 hi (by omega) (Or.inr (by omega))).1)
  | n+1 => simp at hk

/-- A page erase alone is trivially well ordered. -/
theorem EEPROM.GoodTrace_er (e : EEPROM) (a : Nat) : e.GoodTrace [Ev.er a] := by
  intro k p i v _ _ hk
  match k with
  | 0 => simp at hk
  | n+1 => simp at hk

theorem EEPROM.erasePage_trace (e : EEPROM) (m : Mem) (page : Nat) :
    e.GoodTrace (e.erasePage m page).2 := by
  rw [EEPROM.erasePage]
  by_cases h : e.isPageDirty m page = true
  · rw [if_pos h]
    exact e.GoodTrace_er _
  · rw [if_neg h]
    exact e.GoodTrace_nil

theorem EEPROM.rescueLoop_trace (e : EEPROM) (src tgt : Nat) :
    ∀ n m pos, e.GoodTrace (e.rescueLoop src tgt m pos n).2.2 := by
  intro n
  induction n with
  | zero => intro m pos; exact e.GoodTrace_nil
  | succ i ih =>
    intro m pos
    simp only [EEPROM.rescueLoop]
    by_cases hi : 1 ≤ i
    · rw [if_pos hi]
      by_cases ht : e.readItemTag m src i = 65535
      · rw [if_pos ht]
        exact ih m pos
      · rw [if_neg ht]
        by_cases hf : (e.search m tgt pos (e.readItemTag m src i)).isNone = true
        · rw [if_pos hf]
          exact e.GoodTrace_append _ _ (e.GoodTrace_program tgt pos _ _) (ih _ _)
        · rw [if_neg hf]
          exact ih m pos
    · rw [if_neg hi]
      exact e.GoodTrace_nil

theorem EEPROM.rescueIfFull_trace (e : EEPROM) (m : Mem) (src : Nat) :
    e.GoodTrace (e.rescueIfFull m src).2.2 := by
  rw [EEPROM.rescueIfFull]
  by_cases h : e.readItem m src (e.pageItems - 1) = ERASED_ITEM
  · rw [if_pos h]
    exact e.GoodTrace_nil
  · rw [if_neg h]
    refine e.GoodTrace_append _ _ (e.GoodTrace_append _ _ ?_ ?_) ?_
    · exact e.rescueLoop_trace src
        (if src = e.params.pageCount - 1 then 0 else src + 1) e.pageItems m 1
    · exact e.GoodTrace_marker _ _
    · exact e.erasePage_trace _ _

/-- C3: in the trace of flash half-word programs emitted by a write
(including its compaction copies), every program of a data slot's tag
offset is preceded by a program of that slot's data half-word (offset +
2); a tag half-word is never programmed while the data half-word is
still erased. -/
theorem claim_c3 (e : EEPROM) (m : Mem) (T V : Nat)
    (hs : (e.write m T V).isSome = true) :
    e.GoodTrace ((e.write m T V).get hs).2 := by
  obtain ⟨r, hw⟩ := Option.isSome_iff_exists.mp hs
  have hget : (e.write m T V).get hs = r := by simp [hw]
  rw [hget]
  rw [EEPROM.write] at hw
  by_cases hT : T &&& 32768 ≠ 0
  · rw [if_pos hT] at hw
    simp at hw
  · rw [if_neg hT] at hw
    cases hfa : e.findActive m with
    | none =>
      rw [hfa] at hw
      simp at hw
    | some page =>
      rw [hfa] at hw
      simp only [] at hw
      cases hff : e.findFree (e.rescueIfFull m page).2.1 (e.rescueIfFull m page).1 with
      | none =>
        rw [hff] at hw
        simp at hw
      | some item =>
        rw [hff] at hw
        simp only [Option.some_inj] at hw
        rw [← hw]
        exact e.GoodTrace_append _ _ (e.rescueIfFull_trace m page)
          (e.GoodTrace_program _ _ _ _)

/-- C5: compaction of a full source page copies into `(src+1) mod N`,
giving each live tag exactly once with its latest value in consecutive
target slots from slot 1 (so target reads agree with source reads before
the copy), then marks the target active, then erases the source — with
the marker flip strictly before the source erase in the emitted trace —
and returns the target page index. -/
theorem claim_c5 (e : EEPROM) (m : Mem) (src : Nat)
    (hV : e.Valid) (hsrc : src < e.params.pageCount)
    (hfull : ¬ e.readItem m src (e.pageItems - 1) = ERASED_ITEM)
    (her : ∀ i, i < e.pageItems → 1 ≤ i →
      e.readItem m ((src + 1) % e.params.pageCount) i = ERASED_ITEM) :
    (e.rescueIfFull m src).1 = (src + 1) % e.params.pageCount ∧
    (∀ τ, τ ≠ 65535 →
      e.search (e.rescueIfFull m src).2.1 ((src + 1) % e.params.pageCount)
          e.pageItems τ = e.search m src e.pageItems τ) ∧
    (∃ tp, 1 ≤ tp ∧ tp ≤ e.pageItems ∧
      (∀ j, j < e.pageItems → tp ≤ j →
        e.readItem (e.rescueIfFull m src).2.1 ((src + 1) % e.params.pageCount) j =
          ERASED_ITEM) ∧
      (∀ j, j < tp → 1 ≤ j →
        e.readItem (e.rescueIfFull m src).2.1 ((src + 1) % e.params.pageCount) j ≠
          ERASED_ITEM) ∧
      (∀ j k, j < k → k < tp → 1 ≤ j →
        e.readItemTag (e.rescueIfFull m src).2.1 ((src + 1) % e.params.pageCount) j ≠
          e.readItemTag (e.rescueIfFull m src).2.1 ((src + 1) % e.params.pageCount) k)) ∧
    e.pageStatus (e.rescueIfFull m src).2.1 ((src + 1) % e.params.pageCount) =
      ACTIVE_PAGE_MARKER ∧
    (∀ i, i < e.pageItems →
      e.readItem (e.rescueIfFull m src).2.1 src i = ERASED_ITEM) ∧
    (∃ (k1 k2 : Nat), k1 < k2 ∧
      (e.rescueIfFull m src).2.2[k1]? =
        some (Ev.wr (e.pageOffset ((src + 1) % e.params.pageCount)) ACTIVE_PAGE_MARKER) ∧
      (e.rescueIfFull m src).2.2[k2]? = some (Ev.er (e.pageOffset src))) := by
  obtain ⟨hN, hS, hWF⟩ := hV
  have hI : 256 ≤ e.pageItems := e.valid_items ⟨hN, hS, hWF⟩
  have htgtdef : (src + 1) % e.params.pageCount =
      if src = e.params.pageCount - 1 then 0 else src + 1 := by
    by_cases hc : src = e.params.pageCount - 1
    · rw [if_pos hc, hc]
      rw [show e.params.pageCount - 1 + 1 = e.params.pageCount by omega]
      exact Nat.mod_self _
    · rw [if_neg hc]
      exact Nat.mod_eq_of_lt (by omega)
  rcases hrs : e.rescueIfFull m src with ⟨res, m3, evs⟩
  obtain ⟨hres, hpres, ⟨tp, htp1, htp2, htail, hpref, hdst⟩, hstat_tgt, hsrc_er,
      hstat_src, hothers, htrace⟩ :=
    e.rescueIfFull_spec m src ((src + 1) % e.params.pageCount) hWF hN (by omega) hsrc
      htgtdef hfull her res m3 evs hrs
  subst res
  exact ⟨rfl, hpres, ⟨tp, htp1, htp2, htail, hpref, hdst⟩, hstat_tgt, hsrc_er, htrace⟩

/-- Reads of a page are unaffected by memory changes confined to other
pages' ranges. -/
theorem EEPROM.readItem_of_pages_frame (e : EEPROM) (m m' : Mem) (P : Nat → Prop)
    (hb : ∀ o, m' o ≠ m o →
      ∃ p, P p ∧ e.pageOffset p ≤ o ∧ o < e.pageOffset p + e.pageItems * 4)
    (q i : Nat) (hq : ∀ p, P p → p ≠ q) (hiI : i < e.pageItems) :
    e.readItem m' q i = e.readItem m q i := by
  obtain ⟨hin1, hin2⟩ := e.itemOffset_in_page q i hiI
  apply e.readItem_congr_mem
  · by_cases hh : m' (e.itemOffset q i) = m (e.itemOffset q i)
    · exact hh
    · obtain ⟨p, hp, hp1, hp2⟩ := hb _ hh
      exact (e.page_range_disjoint p q _ (hq p hp) hp1 hp2 (by omega) (by omega)).elim
  · by_cases hh : m' (e.itemOffset q i + 2) = m (e.itemOffset q i + 2)
    · exact hh
    · obtain ⟨p, hp, hp1, hp2⟩ := hb _ hh
      exact (e.page_range_disjoint p q _ (hq p hp) hp1 hp2 (by omega) (by omega)).elim

/-- The `init` loop erases exactly the non-active pages it visits and
touches nothing else. -/
theorem EEPROM.initLoop_spec (e : EEPROM) (active : Option Nat)
    (hWF : e.pageItems * ITEM_SIZE = e.params.pageSize * 1024) :
    ∀ fuel start m,
      (∀ o, (e.initLoop active m start fuel).1 o ≠ m o →
        ∃ p, start ≤ p ∧ p < start + fuel ∧ active ≠ some p ∧
          e.pageOffset p ≤ o ∧ o < e.pageOffset p + e.pageItems * 4) ∧
      (∀ p, start ≤ p → p < start + fuel → active ≠ some p →
        ∀ i, i < e.pageItems →
          e.readItem (e.initLoop active m start fuel).1 p i = ERASED_ITEM) := by
  have herasestep : ∀ (m : Mem) (start : Nat),
      (∀ o, (e.erasePage m start).1 o ≠ m o →
        e.pageOffset start ≤ o ∧ o < e.pageOffset start + e.pageItems * 4) ∧
      (∀ i, i < e.pageItems → e.readItem (e.erasePage m start).1 start i = ERASED_ITEM) := by
    intro m start
    constructor
    · intro o h
      by_contra hout
      exact h (e.erasePage_frame m start o hWF hout)
    · intro i hi
      exact e.erasePage_readItem_self m start i hWF hi
  intro fuel
  induction fuel with
  | zero =>
    intro start m
    refine ⟨fun o h => absurd rfl h, fun p h1 h2 => by omega⟩
  | succ f ih =>
    intro start m
    cases active with
    | some p0 =>
      by_cases hp0 : p0 = start
      · have hred : (e.initLoop (some p0) m start (f+1)).1 =
            (e.initLoop (some p0) m (start+1) f).1 := by
          simp only [EEPROM.initLoop, if_pos hp0]
        constructor
        · intro o h
          rw [hred] at h
          obtain ⟨p, h1, h2, h3, h4, h5⟩ := (ih (start+1) m).1 o h
          exact ⟨p, by omega, by omega, h3, h4, h5⟩
        · intro p hp1 hp2 hpact i hi
          have hps : p ≠ start := by
            intro hc
            rw [hc] at hpact
            exact hpact (by rw [hp0])
          rw [hred]
          exact (ih (start+1) m).2 p (by omega) (by omega) hpact i hi
      · have hred : (e.initLoop (some p0) m start (f+1)).1 =
            (e.initLoop (some p0) (e.erasePage m start).1 (start+1) f).1 := by
          simp only [EEPROM.initLoop, if_neg hp0]
        obtain ⟨hfrE, herE⟩ := herasestep m start
        constructor
        · intro o h
          rw [hred] at h
          by_cases h2 : (e.initLoop (some p0) (e.erasePage m start).1 (start+1) f).1 o =
              (e.erasePage m start).1 o
          · rw [h2] at h
            obtain ⟨h4, h5⟩ := hfrE o h
            exact ⟨start, by omega, by omega, by simp only [ne_eq, Option.some.injEq]; exact hp0, h4, h5⟩
          · obtain ⟨p, h1, hlt, h3, h4, h5⟩ := (ih (start+1) _).1 o h2
            exact ⟨p, by omega, by omega, h3, h4, h5⟩
        · intro p hp1 hp2 hpact i hi
          rw [hred]
          by_cases hps : p = start
          · rw [hps]
            rw [e.readItem_of_pages_frame _ _
              (fun q => start + 1 ≤ q ∧ q < start + 1 + f ∧ (some p0 : Option Nat) ≠ some q)
              (fun o ho => by
                obtain ⟨q, h1, h2, h3, h4, h5⟩ := (ih (start+1) _).1 o ho
                exact ⟨q, ⟨h1, h2, h3⟩, h4, h5⟩)
              start i (fun q hq => by omega) hi]
            exact herE i hi
          · exact (ih (start+1) _).2 p (by omega) (by omega) hpact i hi
    | none =>
      have hred : (e.initLoop none m start (f+1)).1 =
          (e.initLoop none (e.erasePage m start).1 (start+1) f).1 := by
        simp only [EEPROM.initLoop]
      obtain ⟨hfrE, herE⟩ := herasestep m start
      constructor
      · intro o h
        rw [hred] at h
        by_cases h2 : (e.initLoop none (e.erasePage m start).1 (start+1) f).1 o =
            (e.erasePage m start).1 o
        · rw [h2] at h
          obtain ⟨h4, h5⟩ := hfrE o h
          exact ⟨start, by omega, by omega, by simp, h4, h5⟩
        · obtain ⟨p, h1, hlt, h3, h4, h5⟩ := (ih (start+1) _).1 o h2
          exact ⟨p, by omega, by omega, h3, h4, h5⟩
      · intro p hp1 hp2 hpact i hi
        rw [hred]
        by_cases hps : p = start
        · rw [hps]
          rw [e.readItem_of_pages_frame _ _
            (fun q => start + 1 ≤ q ∧ q < start + 1 + f ∧ (none : Option Nat) ≠ some q)
            (fun o ho => by
              obtain ⟨q, h1, h2, h3, h4, h5⟩ := (ih (start+1) _).1 o ho
              exact ⟨q, ⟨h1, h2, h3⟩, h4, h5⟩)
            start i (fun q hq => by omega) hi]
          exact herE i hi
        · exact (ih (start+1) _).2 p (by omega) (by omega) hpact i hi

/-- Full postcondition of `init` from an arbitrary prior state. -/
theorem EEPROM.init_spec (e : EEPROM) (m : Mem)
    (hWF : e.pageItems * ITEM_SIZE = e.params.pageSize * 1024) (hI : 1 ≤ e.pageItems)
    (hN : 1 ≤ e.params.pageCount) :
    (∀ A, e.findActive m = some A →
      (∀ o, e.pageOffset A ≤ o → o < e.pageOffset A + e.pageItems * 4 →
        (e.init m).1 o = m o) ∧
      (∀ p, p < e.params.pageCount → p ≠ A →
        ∀ i, i < e.pageItems → e.readItem (e.init m).1 p i = ERASED_ITEM) ∧
      e.pageStatus (e.init m).1 A = ACTIVE_PAGE_MARKER ∧
      (∀ p, p < e.params.pageCount → p ≠ A →
        e.pageStatus (e.init m).1 p ≠ ACTIVE_PAGE_MARKER)) ∧
    (e.findActive m = none →
      e.pageStatus (e.init m).1 0 = ACTIVE_PAGE_MARKER ∧
      (∀ i, i < e.pageItems → 1 ≤ i → e.readItem (e.init m).1 0 i = ERASED_ITEM) ∧
      (∀ p, p < e.params.pageCount → p ≠ 0 →
        (∀ i, i < e.pageItems → e.readItem (e.init m).1 p i = ERASED_ITEM) ∧
        e.pageStatus (e.init m).1 p ≠ ACTIVE_PAGE_MARKER)) := by
  constructor
  · intro A hfa
    have hinit : (e.init m).1 = (e.initLoop (some A) m 0 e.params.pageCount).1 := by
      simp only [EEPROM.init, hfa]
    obtain ⟨hfr, herz⟩ := e.initLoop_spec (some A) hWF e.params.pageCount 0 m
    have huntouched : ∀ o, e.pageOffset A ≤ o → o < e.pageOffset A + e.pageItems * 4 →
        (e.init m).1 o = m o := by
      intro o hlo hhi
      rw [hinit]
      by_cases h : (e.initLoop (some A) m 0 e.params.pageCount).1 o = m o
      · exact h
      · obtain ⟨p, hp1, hp2, hp3, hp4, hp5⟩ := hfr o h
        have hpA : p ≠ A := by
          simp only [ne_eq, Option.some.injEq] at hp3
          exact fun hc => hp3 hc.symm
        exact (e.page_range_disjoint p A o hpA hp4 hp5 hlo hhi).elim
    have herased : ∀ p, p < e.params.pageCount → p ≠ A →
        ∀ i, i < e.pageItems → e.readItem (e.init m).1 p i = ERASED_ITEM := by
      intro p hp hpA i hi
      rw [hinit]
      exact herz p (by omega) (by omega)
        (by simp only [ne_eq, Option.some.injEq]; exact fun hc => hpA hc.symm) i hi
    have hAact : e.pageStatus m A = ACTIVE_PAGE_MARKER := by
      have := (e.findActiveGo_eq_some_iff m e.params.pageCount 0 A).mp hfa
      exact this.2.2.1
    have hstatA : e.pageStatus (e.init m).1 A = ACTIVE_PAGE_MARKER := by
      rw [EEPROM.pageStatus, fread]
      rw [huntouched (e.pageOffset A) (Nat.le_refl _) (by
        have := e.itemOffset_in_page A 0 (by omega)
        rw [EEPROM.pageOffset] at *
        omega)]
      exact hAact
    refine ⟨huntouched, herased, hstatA, ?_⟩
    intro p hp hpA
    rw [e.pageStatus_of_erased _ p (herased p hp hpA 0 (by omega))]
    simp [ACTIVE_PAGE_MARKER]
  · intro hfa
    have hinit : (e.init m).1 =
        (e.setPageStatus (e.initLoop none m 0 e.params.pageCount).1 0 ACTIVE_PAGE_MARKER).1 := by
      simp only [EEPROM.init, hfa]
    obtain ⟨hfr, herz⟩ := e.initLoop_spec none hWF e.params.pageCount 0 m
    have herased : ∀ p, p < e.params.pageCount →
        ∀ i, i < e.pageItems →
          e.readItem (e.initLoop none m 0 e.params.pageCount).1 p i = ERASED_ITEM := by
      intro p hp i hi
      exact herz p (by omega) (by omega) (by simp) i hi
    have hstat0 : e.pageStatus (e.init m).1 0 = ACTIVE_PAGE_MARKER := by
      rw [hinit, e.setPageStatus_pageStatus_self]
      simp [ACTIVE_PAGE_MARKER]
    refine ⟨hstat0, ?_, ?_⟩
    · intro i hi h1i
      rw [hinit, e.setPageStatus_readItem _ 0 ACTIVE_PAGE_MARKER 0 i (by omega) hi
        (Or.inr (by omega))]
      exact herased 0 (by omega) i hi
    · intro p hp hp0
      have hpread : ∀ i, i < e.pageItems → e.readItem (e.init m).1 p i = ERASED_ITEM := by
        intro i hi
        rw [hinit, e.setPageStatus_readItem _ 0 ACTIVE_PAGE_MARKER p i (by omega) hi
          (Or.inl hp0)]
        exact herased p hp i hi
      refine ⟨hpread, ?_⟩
      rw [e.pageStatus_of_erased _ p (hpread 0 (by omega))]
      simp [ACTIVE_PAGE_MARKER]

/-- C4: after `init` from any prior state, a found active page is left
untouched (no compaction recovery) and every other page is fully erased;
when no active page was found every page is erased and page 0 is marked
active; in either case exactly one page is active. -/
theorem claim_c4 (e : EEPROM) (m : Mem) (hV : e.Valid) :
    (∀ A, e.findActive m = some A →
      (∀ o, e.pageOffset A ≤ o → o < e.pageOffset A + e.pageItems * 4 →
        (e.init m).1 o = m o) ∧
      (∀ p, p < e.params.pageCount → p ≠ A →
        ∀ i, i < e.pageItems → e.readItem (e.init m).1 p i = ERASED_ITEM) ∧
      e.pageStatus (e.init m).1 A = ACTIVE_PAGE_MARKER ∧
      (∀ p, p < e.params.pageCount → p ≠ A →
        e.pageStatus (e.init m).1 p ≠ ACTIVE_PAGE_MARKER)) ∧
    (e.findActive m = none →
      e.pageStatus (e.init m).1 0 = ACTIVE_PAGE_MARKER ∧
      (∀ i, i < e.pageItems → 1 ≤ i → e.readItem (e.init m).1 0 i = ERASED_ITEM) ∧
      (∀ p, p < e.params.pageCount → p ≠ 0 →
        (∀ i, i < e.pageItems → e.readItem (e.init m).1 p i = ERASED_ITEM) ∧
        e.pageStatus (e.init m).1 p ≠ ACTIVE_PAGE_MARKER)) := by
  obtain ⟨hN, hS, hWF⟩ := hV
  exact e.init_spec m hWF (by have := e.valid_items ⟨hN, hS, hWF⟩; omega) (by omega)

/-- When every page the loop visits that is not the active page is
already clean, the `init` loop does nothing. -/
theorem EEPROM.initLoop_clean (e : EEPROM) (active : Option Nat) :
    ∀ fuel start m,
      (∀ p, start ≤ p → p < start + fuel → active ≠ some p →
        ∀ i, i < e.pageItems → e.readItem m p i = ERASED_ITEM) →
      e.initLoop active m start fuel = (m, []) := by
  intro fuel
  induction fuel with
  | zero => intro start m _; rfl
  | succ f ih =>
    intro start m hclean
    cases active with
    | some p0 =>
      by_cases hp0 : p0 = start
      · have hrec := ih (start+1) m
          (fun p h1 h2 hact i hi => hclean p (by omega) (by omega) hact i hi)
        simp only [EEPROM.initLoop, if_pos hp0, hrec, List.append_nil]
      · have hne : (some p0 : Option Nat) ≠ some start := by
          simp only [ne_eq, Option.some.injEq]
          exact hp0
        have hdirty : e.isPageDirty m start = false :=
          e.isPageDirty_eq_false m start
            (fun i hi => hclean start (by omega) (by omega) hne i hi)
        have hskip : e.erasePage m start = (m, []) := by
          rw [EEPROM.erasePage, if_neg (by rw [hdirty]; simp)]
        have hrec := ih (start+1) m
          (fun p h1 h2 hact i hi => hclean p (by omega) (by omega) hact i hi)
        simp only [EEPROM.initLoop, if_neg hp0, hskip, hrec, List.append_nil]
    | none =>
      have hdirty : e.isPageDirty m start = false :=
        e.isPageDirty_eq_false m start
          (fun i hi => hclean start (by omega) (by omega) (by simp) i hi)
      have hskip : e.erasePage m start = (m, []) := by
        rw [EEPROM.erasePage, if_neg (by rw [hdirty]; simp)]
      have hrec := ih (start+1) m
        (fun p h1 h2 hact i hi => hclean p (by omega) (by omega) hact i hi)
      simp only [EEPROM.initLoop, hskip, hrec, List.append_nil]

/-- C8: `init` is idempotent — running it a second time after a
successful `init` leaves the flash image identical at every offset. -/
theorem claim_c8 (e : EEPROM) (m : Mem) (hV : e.Valid) :
    ∀ o, (e.init (e.init m).1).1 o = (e.init m).1 o := by
  obtain ⟨hN, hS, hWF⟩ := hV
  have hI : 256 ≤ e.pageItems := e.valid_items ⟨hN, hS, hWF⟩
  obtain ⟨hsome, hnone⟩ := e.init_spec m hWF (by omega) (by omega)
  -- after the first init there is an active page A1 with all other
  -- pages fully erased
  have hpost : ∃ A1, A1 < e.params.pageCount ∧
      e.pageStatus (e.init m).1 A1 = ACTIVE_PAGE_MARKER ∧
      ∀ p, p < e.params.pageCount → p ≠ A1 →
        ∀ i, i < e.pageItems → e.readItem (e.init m).1 p i = ERASED_ITEM := by
    cases hfa : e.findActive m with
    | some A =>
      obtain ⟨_, herased, hstat, _⟩ := hsome A hfa
      have hA : A < e.params.pageCount := by
        have := (e.findActiveGo_eq_some_iff m e.params.pageCount 0 A).mp hfa
        omega
      exact ⟨A, hA, hstat, herased⟩
    | none =>
      obtain ⟨hstat, _, hrest⟩ := hnone hfa
      exact ⟨0, by omega, hstat, fun p hp hp0 i hi => (hrest p hp hp0).1 i hi⟩
  obtain ⟨A1, hA1, hstat1, her1⟩ := hpost
  have hfa1 : e.findActive (e.init m).1 = some A1 := by
    apply e.findActive_eq_some _ A1 hA1 hstat1
    intro q hq
    rw [e.pageStatus_of_erased _ q (her1 q (by omega) (by omega) 0 (by omega))]
    simp [ACTIVE_PAGE_MARKER]
  have hloop := e.initLoop_clean (some A1) e.params.pageCount 0 (e.init m).1
    (fun p h1 h2 hact i hi => her1 p (by omega)
      (by intro hc; rw [hc] at hact; exact hact rfl) i hi)
  intro o
  generalize hm1 : (e.init m).1 = m1 at hfa1 hloop ⊢
  simp only [EEPROM.init, hfa1, hloop]

theorem EEPROM.ferase_readItem_self (e : EEPROM) (m : Mem) (page i : Nat)
    (hWF : e.pageItems * ITEM_SIZE = e.params.pageSize * 1024) (hi : i < e.pageItems) :
    e.readItem (ferase m (e.pageOffset page) (e.params.pageSize * 1024)) page i =
      ERASED_ITEM := by
  obtain ⟨hin1, hin2⟩ := e.itemOffset_in_page page i hi
  rw [EEPROM.readItem, e.wf_bytes hWF]
  rw [fread_ferase_in _ _ _ _ (by omega) (by omega),
      fread_ferase_in _ _ _ _ (by omega) (by omega)]
  rfl

theorem EEPROM.ferase_page_frame (e : EEPROM) (m : Mem) (page o : Nat)
    (hWF : e.pageItems * ITEM_SIZE = e.params.pageSize * 1024)
    (h : ¬ (e.pageOffset page ≤ o ∧ o < e.pageOffset page + e.pageItems * 4)) :
    ferase m (e.pageOffset page) (e.params.pageSize * 1024) o = m o := by
  rw [e.wf_bytes hWF]
  exact ferase_out _ _ _ _ h

/-- The erase-page start offset used by `erase` is the page offset. -/
theorem EEPROM.erase_offset (e : EEPROM) (page : Nat)
    (hWF : e.pageItems * ITEM_SIZE = e.params.pageSize * 1024) :
    (e.params.firstPage + page) * (e.params.pageSize * 1024) = e.pageOffset page := by
  rw [e.wf_bytes hWF, e.pageOffset_eq]
  ring

/-- The loop of `erase` erases every page it visits unconditionally and
emits one page-erase event per page. -/
theorem EEPROM.eraseLoop_spec (e : EEPROM)
    (hWF : e.pageItems * ITEM_SIZE = e.params.pageSize * 1024) :
    ∀ fuel start m,
      ((e.eraseLoop m start fuel).2 = (List.range' start fuel).map
        (fun p => Ev.er ((e.params.firstPage + p) * (e.params.pageSize * 1024)))) ∧
      (∀ o, (e.eraseLoop m start fuel).1 o ≠ m o →
        ∃ p, start ≤ p ∧ p < start + fuel ∧
          e.pageOffset p ≤ o ∧ o < e.pageOffset p + e.pageItems * 4) ∧
      (∀ p, start ≤ p → p < start + fuel →
        ∀ i, i < e.pageItems →
          e.readItem (e.eraseLoop m start fuel).1 p i = ERASED_ITEM) := by
  intro fuel
  induction fuel with
  | zero =>
    intro start m
    refine ⟨by simp [EEPROM.eraseLoop], fun o h => absurd rfl h, fun p h1 h2 => by omega⟩
  | succ f ih =>
    intro start m
    have hoff := e.erase_offset start hWF
    have hred1 : (e.eraseLoop m start (f+1)).1 =
        (e.eraseLoop (ferase m ((e.params.firstPage + start) * (e.params.pageSize * 1024))
          (e.params.pageSize * 1024)) (start+1) f).1 := rfl
    have hred2 : (e.eraseLoop m start (f+1)).2 =
        Ev.er ((e.params.firstPage + start) * (e.params.pageSize * 1024)) ::
        (e.eraseLoop (ferase m ((e.params.firstPage + start) * (e.params.pageSize * 1024))
          (e.params.pageSize * 1024)) (start+1) f).2 := rfl
    obtain ⟨iht, ihf, ihe⟩ := ih (start+1)
      (ferase m ((e.params.firstPage + start) * (e.params.pageSize * 1024))
        (e.params.pageSize * 1024))
    refine ⟨?_, ?_, ?_⟩
    · rw [hred2, iht, List.range'_succ, List.map_cons]
    · intro o h
      rw [hred1] at h
      by_cases h2 : (e.eraseLoop (ferase m ((e.params.firstPage + start) *
          (e.params.pageSize * 1024)) (e.params.pageSize * 1024)) (start+1) f).1 o =
          ferase m ((e.params.firstPage + start) * (e.params.pageSize * 1024))
            (e.params.pageSize * 1024) o
      · rw [h2] at h
        rw [hoff] at h
        refine ⟨start, by omega, by omega, ?_⟩
        by_contra hout
        exact h (e.ferase_page_frame m start o hWF hout)
      · obtain ⟨p, h1, hlt, h4, h5⟩ := ihf o h2
        exact ⟨p, by omega, by omega, h4, h5⟩
    · intro p hp1 hp2 i hi
      rw [hred1]
      by_cases hps : p = start
      · rw [hps]
        rw [e.readItem_of_pages_frame _ _
          (fun q => start + 1 ≤ q ∧ q < start + 1 + f)
          (fun o ho => by
            obtain ⟨q, h1, h2, h4, h5⟩ := ihf o ho
            exact ⟨q, ⟨h1, h2⟩, h4, h5⟩)
          start i (fun q hq => by omega) hi]
        rw [hoff]
        exact e.ferase_readItem_self m start i hWF hi
      · exact ihe p (by omega) (by omega) i hi

/-- C7 (amended): `erase()` invokes the flash page-erase primitive for
every page unconditionally — the dirty short-circuit of `erase_page` is
not used by `erase` — and then marks page 0 active; on success the
region is in the canonical empty state. -/
theorem claim_c7 (e : EEPROM) (m : Mem) (hV : e.Valid) :
    e.pageStatus (e.erase m).1 0 = ACTIVE_PAGE_MARKER ∧
    (∀ i, i < e.pageItems → 1 ≤ i → e.readItem (e.erase m).1 0 i = ERASED_ITEM) ∧
    (∀ p, p < e.params.pageCount → p ≠ 0 →
      (∀ i, i < e.pageItems → e.readItem (e.erase m).1 p i = ERASED_ITEM) ∧
      e.pageStatus (e.erase m).1 p ≠ ACTIVE_PAGE_MARKER) ∧
    (e.erase m).2 = (List.range e.params.pageCount).map
        (fun p => Ev.er ((e.params.firstPage + p) * (e.params.pageSize * 1024))) ++
      [Ev.wr (e.pageOffset 0) ACTIVE_PAGE_MARKER] := by
  obtain ⟨hN, hS, hWF⟩ := hV
  have hI : 256 ≤ e.pageItems := e.valid_items ⟨hN, hS, hWF⟩
  obtain ⟨htr, hfr, her⟩ := e.eraseLoop_spec hWF e.params.pageCount 0 m
  have hred1 : (e.erase m).1 =
      (e.setPageStatus (e.eraseLoop m 0 e.params.pageCount).1 0 ACTIVE_PAGE_MARKER).1 := rfl
  have hred2 : (e.erase m).2 =
      (e.eraseLoop m 0 e.params.pageCount).2 ++ [Ev.wr (e.pageOffset 0) ACTIVE_PAGE_MARKER] :=
    rfl
  refine ⟨?_, ?_, ?_, ?_⟩
  · rw [hred1, e.setPageStatus_pageStatus_self]
    rfl
  · intro i hi h1i
    rw [hred1, e.setPageStatus_readItem _ 0 ACTIVE_PAGE_MARKER 0 i (by omega) hi
      (Or.inr (by omega))]
    exact her 0 (by omega) (by omega) i hi
  · intro p hp hp0
    have hpe : ∀ i, i < e.pageItems → e.readItem (e.erase m).1 p i = ERASED_ITEM := by
      intro i hi
      rw [hred1, e.setPageStatus_readItem _ 0 ACTIVE_PAGE_MARKER p i (by omega) hi
        (Or.inl hp0)]
      exact her p (by omega) (by omega) i hi
    refine ⟨hpe, ?_⟩
    rw [e.pageStatus_of_erased _ p (hpe 0 (by omega))]
    simp [ACTIVE_PAGE_MARKER]
  · rw [hred2, htr, List.range_eq_range']

set_option maxRecDepth 4096 in
/-- C7 counterexample: on a fully erased region — where no page is dirty
— `erase` still emits the page-erase primitive for page 0, refuting the
claim that the primitive is invoked only for dirty pages. -/
theorem claim_c7_counterexample :
    (ew.erase memEmpty).2[0]? = some (Ev.er 0) ∧ ew.isPageDirty memEmpty 0 = false := by
  constructor
  · rfl
  · decide

/-!
Error propagation through the fallible model.
-/

theorem Out.ok_noErr (v : β) : (Out.ok (α := α) v).NoErr := by
  intro ε h
  exact Out.noConfusion h

theorem Out.abort_noErr : (Out.abort : Out α β).NoErr := by
  intro ε h
  exact Out.noConfusion h

theorem Out.unwrapOut_noErr (x : Out α β) : x.unwrapOut.NoErr := by
  intro ε h
  cases x <;> simp [Out.unwrapOut] at h

theorem Out.NoErr.andThenN {x : Out α β} {g : β → Out α γ} (hx : x.NoErr)
    (hg : ∀ b, (g b).NoErr) : (x.andThen g).NoErr := by
  intro ε h
  cases x with
  | ok v => exact hg v ε h
  | err δ => exact hx δ rfl
  | abort => simp [Out.andThen] at h

theorem Out.andThen_err {x : Out α β} {g : β → Out α γ} {ε : α}
    (h : x.andThen g = .err ε) : x = .err ε ∨ ∃ b, x = .ok b ∧ g b = .err ε := by
  cases x with
  | ok v => exact Or.inr ⟨v, rfl, h⟩
  | err δ =>
    simp only [Out.andThen, Out.err.injEq] at h
    exact Or.inl (by rw [h])
  | abort => simp [Out.andThen] at h

theorem Out.andThen_ok {x : Out α β} {g : β → Out α γ} {c : γ}
    (h : x.andThen g = .ok c) : ∃ b, x = .ok b ∧ g b = .ok c := by
  cases x with
  | ok v => exact ⟨v, rfl, h⟩
  | err δ => simp [Out.andThen] at h
  | abort => simp [Out.andThen] at h

theorem FFlash.sameErr_refl (f : FFlash α) : f.sameErr f := ⟨rfl, rfl, rfl⟩

theorem FFlash.sameErr_trans {h g f : FFlash α} (h1 : h.sameErr g) (h2 : g.sameErr f) :
    h.sameErr f :=
  ⟨h1.1.trans h2.1, h1.2.1.trans h2.2.1, h1.2.2.trans h2.2.2⟩

theorem FFlash.FromWrEr_mono {g f : FFlash α} (hs : g.sameErr f) {ε : α}
    (h : g.FromWrEr ε) : f.FromWrEr ε := by
  obtain ⟨hr, hw, he⟩ := hs
  rcases h with ⟨o, ho⟩ | ⟨o, ho⟩
  · exact Or.inl ⟨o, by rw [← hw]; exact ho⟩
  · exact Or.inr ⟨o, by rw [← he]; exact ho⟩

theorem FFlash.wrt_spec (f : FFlash α) (o v : Nat) :
    (∀ ε, f.wrt o v = .err ε → f.FromWrEr ε) ∧
    (∀ f1, f.wrt o v = .ok f1 → f1.sameErr f) := by
  rcases h : f.wrErr o with _ | ε0
  · constructor
    · intro ε hε
      simp [FFlash.wrt, h] at hε
    · intro f1 h1
      simp only [FFlash.wrt, h, Out.ok.injEq] at h1
      rw [← h1]
      exact ⟨rfl, rfl, rfl⟩
  · constructor
    · intro ε hε
      simp only [FFlash.wrt, h, Out.err.injEq] at hε
      exact Or.inl ⟨o, by rw [h, hε]⟩
    · intro f1 h1
      simp [FFlash.wrt, h] at h1

theorem FFlash.ers_spec (f : FFlash α) (addr bytes : Nat) :
    (∀ ε, f.ers addr bytes = .err ε → f.FromWrEr ε) ∧
    (∀ f1, f.ers addr bytes = .ok f1 → f1.sameErr f) := by
  rcases h : f.erErr addr with _ | ε0
  · constructor
    · intro ε hε
      simp [FFlash.ers, h] at hε
    · intro f1 h1
      simp only [FFlash.ers, h, Out.ok.injEq] at h1
      rw [← h1]
      exact ⟨rfl, rfl, rfl⟩
  · constructor
    · intro ε hε
      simp only [FFlash.ers, h, Out.err.injEq] at hε
      exact Or.inr ⟨addr, by rw [h, hε]⟩
    · intro f1 h1
      simp [FFlash.ers, h] at h1

theorem EEPROM.readItemF_noErr (e : EEPROM) (f : FFlash α) (page item : Nat) :
    (e.readItemF f page item).NoErr :=
  Out.NoErr.andThenN (Out.unwrapOut_noErr _)
    (fun _ => Out.NoErr.andThenN (Out.unwrapOut_noErr _) (fun _ => Out.ok_noErr _))

theorem EEPROM.pageStatusF_noErr (e : EEPROM) (f : FFlash α) (page : Nat) :
    (e.pageStatusF f page).NoErr :=
  Out.unwrapOut_noErr _

theorem EEPROM.findActiveGoF_noErr (e : EEPROM) (f : FFlash α) :
    ∀ fuel start, (e.findActiveGoF f start fuel).NoErr := by
  intro fuel
  induction fuel with
  | zero => intro start; exact Out.ok_noErr _
  | succ n ih =>
    intro start
    apply Out.NoErr.andThenN (e.pageStatusF_noErr f start)
    intro s
    by_cases hs : s = ACTIVE_PAGE_MARKER
    · simp only [hs, if_pos rfl]
      exact Out.ok_noErr _
    · simp only [if_neg hs]
      exact ih (start + 1)

theorem EEPROM.scanDescF_noErr (e : EEPROM) (f : FFlash α) (page tag lo : Nat) :
    ∀ n, (e.scanDescF f page tag lo n).NoErr := by
  intro n
  induction n with
  | zero => exact Out.ok_noErr _
  | succ i ih =>
    by_cases hlo : lo ≤ i
    · simp only [EEPROM.scanDescF, if_pos hlo]
      apply Out.NoErr.andThenN (e.readItemF_noErr f page i)
      intro w
      by_cases hw : w % 65536 = tag
      · simp only [if_pos hw]
        exact Out.ok_noErr _
      · simp only [if_neg hw]
        exact ih
    · simp only [EEPROM.scanDescF, if_neg hlo]
      exact Out.ok_noErr _

theorem EEPROM.searchF_noErr (e : EEPROM) (f : FFlash α) (page maxItem tag : Nat) :
    (e.searchF f page maxItem tag).NoErr :=
  e.scanDescF_noErr f page tag 1 maxItem

theorem EEPROM.readF_noErr (e : EEPROM) (f : FFlash α) (tag : Nat) :
    (e.readF f tag).NoErr := by
  rw [EEPROM.readF]
  by_cases hg : tag &&& 32768 ≠ 0
  · rw [if_pos hg]
    exact Out.abort_noErr
  · rw [if_neg hg]
    apply Out.NoErr.andThenN (e.findActiveGoF_noErr f e.params.pageCount 0)
    intro act
    cases act with
    | none => exact Out.abort_noErr
    | some page => exact e.searchF_noErr f page e.pageItems tag

theorem EEPROM.isPageDirtyGoF_noErr (e : EEPROM) (f : FFlash α) (page : Nat) :
    ∀ fuel item, (e.isPageDirtyGoF f page item fuel).NoErr := by
  intro fuel
  induction fuel with
  | zero => intro item; exact Out.ok_noErr _
  | succ n ih =>
    intro item
    apply Out.NoErr.andThenN (e.readItemF_noErr f page item)
    intro w
    by_cases hw : w ≠ ERASED_ITEM
    · simp only [if_pos hw]
      exact Out.ok_noErr _
    · simp only [if_neg hw]
      exact ih (item + 1)

theorem EEPROM.findFreeGoF_noErr (e : EEPROM) (f : FFlash α) (page : Nat) :
    ∀ fuel item, (e.findFreeGoF f page item fuel).NoErr := by
  intro fuel
  induction fuel with
  | zero => intro item; exact Out.ok_noErr _
  | succ n ih =>
    intro item
    apply Out.NoErr.andThenN (e.readItemF_noErr f page item)
    intro w
    by_cases hw : w = ERASED_ITEM
    · simp only [if_pos hw]
      exact Out.ok_noErr _
    · simp only [if_neg hw]
      exact ih (item + 1)

theorem EEPROM.erasePageF_spec (e : EEPROM) (f : FFlash α) (page : Nat) :
    (∀ ε, e.erasePageF f page = .err ε → f.FromWrEr ε) ∧
    (∀ f1, e.erasePageF f page = .ok f1 → f1.sameErr f) := by
  rw [EEPROM.erasePageF]
  constructor
  · intro ε h
    rcases Out.andThen_err h with h1 | ⟨d, hd, h2⟩
    · exact absurd h1 (e.isPageDirtyGoF_noErr f page e.pageItems 0 ε)
    · rcases d with _ | _
      · rw [if_neg Bool.false_ne_true] at h2
        exact absurd h2 (Out.ok_noErr f ε)
      · rw [if_pos rfl] at h2
        exact (f.ers_spec _ _).1 ε h2
  · intro f1 h
    obtain ⟨d, hd, h2⟩ := Out.andThen_ok h
    rcases d with _ | _
    · rw [if_neg Bool.false_ne_true] at h2
      cases h2
      exact f.sameErr_refl
    · rw [if_pos rfl] at h2
      exact (f.ers_spec _ _).2 f1 h2

theorem EEPROM.programItemF_spec (e : EEPROM) (f : FFlash α) (page pos tag dat : Nat) :
    (∀ ε, e.programItemF f page pos tag dat = .err ε → f.FromWrEr ε) ∧
    (∀ f1, e.programItemF f page pos tag dat = .ok f1 → f1.sameErr f) := by
  rw [EEPROM.programItemF]
  constructor
  · intro ε h
    rcases Out.andThen_err h with h1 | ⟨f1, hf1, h2⟩
    · exact (f.wrt_spec _ _).1 ε h1
    · exact FFlash.FromWrEr_mono ((f.wrt_spec _ _).2 f1 hf1) ((f1.wrt_spec _ _).1 ε h2)
  · intro f2 h
    obtain ⟨f1, hf1, h2⟩ := Out.andThen_ok h
    exact FFlash.sameErr_trans ((f1.wrt_spec _ _).2 f2 h2) ((f.wrt_spec _ _).2 f1 hf1)

theorem EEPROM.initLoopF_spec (e : EEPROM) (active : Option Nat) :
    ∀ fuel start (f : FFlash α),
      (∀ ε, e.initLoopF active f start fuel = .err ε → f.FromWrEr ε) ∧
      (∀ f1, e.initLoopF active f start fuel = .ok f1 → f1.sameErr f) := by
  intro fuel
  induction fuel with
  | zero =>
    intro start f
    constructor
    · intro ε h
      exact absurd h (Out.ok_noErr f ε)
    · intro f1 h
      cases h
      exact f.sameErr_refl
  | succ n ih =>
    intro start f
    have hstep : (∀ ε, (match active with
        | some p => if p = start then Out.ok f else e.erasePageF f start
        | none => e.erasePageF f start) = .err ε → f.FromWrEr ε) ∧
        (∀ f1, (match active with
          | some p => if p = start then Out.ok f else e.erasePageF f start
          | none => e.erasePageF f start) = .ok f1 → f1.sameErr f) := by
      cases active with
      | some p =>
        dsimp only
        by_cases hp : p = start
        · rw [if_pos hp]
          exact ⟨fun ε h => absurd h (Out.ok_noErr f ε),
            fun f1 h => by cases h; exact f.sameErr_refl⟩
        · rw [if_neg hp]
          exact e.erasePageF_spec f start
      | none =>
        dsimp only
        exact e.erasePageF_spec f start
    constructor
    · intro ε h
      rcases Out.andThen_err h with h1 | ⟨f1, hf1, h2⟩
      · exact hstep.1 ε h1
      · exact FFlash.FromWrEr_mono (hstep.2 f1 hf1) ((ih (start+1) f1).1 ε h2)
    · intro f2 h
      obtain ⟨f1, hf1, h2⟩ := Out.andThen_ok h
      exact FFlash.sameErr_trans ((ih (start+1) f1).2 f2 h2) (hstep.2 f1 hf1)

theorem EEPROM.initF_err (e : EEPROM) (f : FFlash α) :
    ∀ ε, e.initF f = .err ε → f.FromWrEr ε := by
  intro ε h
  rw [EEPROM.initF] at h
  rcases Out.andThen_err h with h1 | ⟨act, hact, h2⟩
  · exact absurd h1 (e.findActiveGoF_noErr f e.params.pageCount 0 ε)
  · rcases Out.andThen_err h2 with h3 | ⟨f1, hf1, h4⟩
    · exact (e.initLoopF_spec act e.params.pageCount 0 f).1 ε h3
    · have hsame := (e.initLoopF_spec act e.params.pageCount 0 f).2 f1 hf1
      cases act with
      | none => exact FFlash.FromWrEr_mono hsame ((f1.wrt_spec _ _).1 ε h4)
      | some p => exact absurd h4 (Out.ok_noErr f1 ε)

theorem EEPROM.eraseLoopF_spec (e : EEPROM) :
    ∀ fuel start (f : FFlash α),
      (∀ ε, e.eraseLoopF f start fuel = .err ε → f.FromWrEr ε) ∧
      (∀ f1, e.eraseLoopF f start fuel = .ok f1 → f1.sameErr f) := by
  intro fuel
  induction fuel with
  | zero =>
    intro start f
    constructor
    · intro ε h
      exact absurd h (Out.ok_noErr f ε)
    · intro f1 h
      cases h
      exact f.sameErr_refl
  | succ n ih =>
    intro start f
    constructor
    · intro ε h
      rcases Out.andThen_err h with h1 | ⟨f1, hf1, h2⟩
      · exact (f.ers_spec _ _).1 ε h1
      · exact FFlash.FromWrEr_mono ((f.ers_spec _ _).2 f1 hf1) ((ih (start+1) f1).1 ε h2)
    · intro f2 h
      obtain ⟨f1, hf1, h2⟩ := Out.andThen_ok h
      exact FFlash.sameErr_trans ((ih (start+1) f1).2 f2 h2) ((f.ers_spec _ _).2 f1 hf1)

theorem EEPROM.eraseF_err (e : EEPROM) (f : FFlash α) :
    ∀ ε, e.eraseF f = .err ε → f.FromWrEr ε := by
  intro ε h
  rw [EEPROM.eraseF] at h
  rcases Out.andThen_err h with h1 | ⟨f1, hf1, h2⟩
  · exact (e.eraseLoopF_spec e.params.pageCount 0 f).1 ε h1
  · exact FFlash.FromWrEr_mono ((e.eraseLoopF_spec e.params.pageCount 0 f).2 f1 hf1)
      ((f1.wrt_spec _ _).1 ε h2)

theorem EEPROM.rescueLoopF_spec (e : EEPROM) (src tgt : Nat) :
    ∀ fuel pos (f : FFlash α),
      (∀ ε, e.rescueLoopF src tgt f pos fuel = .err ε → f.FromWrEr ε) ∧
      (∀ r, e.rescueLoopF src tgt f pos fuel = .ok r → r.1.sameErr f) := by
  intro fuel
  induction fuel with
  | zero =>
    intro pos f
    constructor
    · intro ε h
      exact absurd h (Out.ok_noErr _ ε)
    · intro r h
      cases h
      exact f.sameErr_refl
  | succ i ih =>
    intro pos f
    by_cases hi : 1 ≤ i
    · constructor
      · intro ε h
        simp only [EEPROM.rescueLoopF, if_pos hi] at h
        rcases Out.andThen_err h with h1 | ⟨w, hw, h2⟩
        · exact absurd h1 (e.readItemF_noErr f src i ε)
        · by_cases hwt : w % 65536 = 65535
          · rw [if_pos hwt] at h2
            exact (ih pos f).1 ε h2
          · rw [if_neg hwt] at h2
            rcases Out.andThen_err h2 with h3 | ⟨found, hfound, h4⟩
            · exact absurd h3 (e.searchF_noErr f tgt pos _ ε)
            · by_cases hfn : found.isNone = true
              · rw [if_pos hfn] at h4
                rcases Out.andThen_err h4 with h5 | ⟨f1, hf1, h6⟩
                · exact (e.programItemF_spec f tgt pos _ _).1 ε h5
                · exact FFlash.FromWrEr_mono ((e.programItemF_spec f tgt pos _ _).2 f1 hf1)
                    ((ih (pos+1) f1).1 ε h6)
              · rw [if_neg hfn] at h4
                exact (ih pos f).1 ε h4
      · intro r h
        simp only [EEPROM.rescueLoopF, if_pos hi] at h
        obtain ⟨w, hw, h2⟩ := Out.andThen_ok h
        by_cases hwt : w % 65536 = 65535
        · rw [if_pos hwt] at h2
          exact (ih pos f).2 r h2
        · rw [if_neg hwt] at h2
          obtain ⟨found, hfound, h4⟩ := Out.andThen_ok h2
          by_cases hfn : found.isNone = true
          · rw [if_pos hfn] at h4
            obtain ⟨f1, hf1, h6⟩ := Out.andThen_ok h4
            exact FFlash.sameErr_trans ((ih (pos+1) f1).2 r h6)
              ((e.programItemF_spec f tgt pos _ _).2 f1 hf1)
          · rw [if_neg hfn] at h4
            exact (ih pos f).2 r h4
    · constructor
      · intro ε h
        simp only [EEPROM.rescueLoopF, if_neg hi] at h
        exact absurd h (Out.ok_noErr _ ε)
      · intro r h
        simp only [EEPROM.rescueLoopF, if_neg hi] at h
        cases h
        exact f.sameErr_refl

theorem EEPROM.rescueIfFullF_spec (e : EEPROM) (f : FFlash α) (srcPage : Nat) :
    (∀ ε, e.rescueIfFullF f srcPage = .err ε → f.FromWrEr ε) ∧
    (∀ r, e.rescueIfFullF f srcPage = .ok r → r.2.sameErr f) := by
  rw [EEPROM.rescueIfFullF]
  constructor
  · intro ε h
    rcases Out.andThen_err h with h1 | ⟨w, hw, h2⟩
    · exact absurd h1 (e.readItemF_noErr f srcPage _ ε)
    · by_cases hwe : w = ERASED_ITEM
      · rw [if_pos hwe] at h2
        exact absurd h2 (Out.ok_noErr _ ε)
      · rw [if_neg hwe] at h2
        rcases Out.andThen_err h2 with h3 | ⟨s1, hs1, h4⟩
        · exact (e.rescueLoopF_spec srcPage _ e.pageItems 1 f).1 ε h3
        · have hsame1 := (e.rescueLoopF_spec srcPage _ e.pageItems 1 f).2 s1 hs1
          rcases Out.andThen_err h4 with h5 | ⟨f2, hf2, h6⟩
          · exact FFlash.FromWrEr_mono hsame1 ((s1.1.wrt_spec _ _).1 ε h5)
          · have hsame2 := (s1.1.wrt_spec _ _).2 f2 hf2
            rcases Out.andThen_err h6 with h7 | ⟨f3, hf3, h8⟩
            · exact FFlash.FromWrEr_mono (FFlash.sameErr_trans hsame2 hsame1)
                ((e.erasePageF_spec f2 srcPage).1 ε h7)
            · exact absurd h8 (Out.ok_noErr _ ε)
  · intro r h
    obtain ⟨w, hw, h2⟩ := Out.andThen_ok h
    by_cases hwe : w = ERASED_ITEM
    · rw [if_pos hwe] at h2
      cases h2
      exact f.sameErr_refl
    · rw [if_neg hwe] at h2
      obtain ⟨s1, hs1, h4⟩ := Out.andThen_ok h2
      have hsame1 := (e.rescueLoopF_spec srcPage _ e.pageItems 1 f).2 s1 hs1
      obtain ⟨f2, hf2, h6⟩ := Out.andThen_ok h4
      have hsame2 := (s1.1.wrt_spec _ _).2 f2 hf2
      obtain ⟨f3, hf3, h8⟩ := Out.andThen_ok h6
      have hsame3 := (e.erasePageF_spec f2 srcPage).2 f3 hf3
      cases h8
      exact FFlash.sameErr_trans hsame3 (FFlash.sameErr_trans hsame2 hsame1)

theorem EEPROM.writeF_err (e : EEPROM) (f : FFlash α) (tag dat : Nat) :
    ∀ ε, e.writeF f tag dat = .err ε → f.FromWrEr ε := by
  intro ε h
  rw [EEPROM.writeF] at h
  by_cases hg : tag &&& 32768 ≠ 0
  · rw [if_pos hg] at h
    exact absurd h (Out.abort_noErr ε)
  · rw [if_neg hg] at h
    rcases Out.andThen_err h with h1 | ⟨act, hact, h2⟩
    · exact absurd h1 (e.findActiveGoF_noErr f e.params.pageCount 0 ε)
    · cases act with
      | none => exact absurd h2 (Out.abort_noErr ε)
      | some page =>
        rcases Out.andThen_err h2 with h3 | ⟨s1, hs1, h4⟩
        · exact (e.rescueIfFullF_spec f page).1 ε h3
        · have hsame1 := (e.rescueIfFullF_spec f page).2 s1 hs1
          rcases Out.andThen_err h4 with h5 | ⟨free, hfree, h6⟩
          · exact absurd h5 (e.findFreeGoF_noErr s1.2 s1.1 (e.pageItems - 1) 1 ε)
          · cases free with
            | none => exact absurd h6 (Out.abort_noErr ε)
            | some item =>
              exact FFlash.FromWrEr_mono hsame1
                ((e.programItemF_spec s1.2 s1.1 item tag dat).1 ε h6)

/-- C9 (amended): during `init`, `erase` and `write`, every flash error
returned to the caller is an error the collaborator injected for a
half-word program or a page erase, unchanged; `read` never returns a
flash error at all (the controller unwraps `Flash::read` results, so
collaborator read errors become aborts instead). -/
theorem claim_c9 (e : EEPROM) (f : FFlash α) (T V : Nat) :
    (∀ ε, e.initF f = .err ε → f.FromWrEr ε) ∧
    (∀ ε, e.eraseF f = .err ε → f.FromWrEr ε) ∧
    (∀ ε, e.writeF f T V = .err ε → f.FromWrEr ε) ∧
    (∀ ε, e.readF f T ≠ .err ε) :=
  ⟨e.initF_err f, e.eraseF_err f, e.writeF_err f T V, e.readF_noErr f T⟩

/-- C9 counterexample: with an error injected for the `Flash::read` of
the page-0 marker, `read(1)` aborts (the code unwraps the read result)
instead of returning that flash error to the caller. -/
theorem claim_c9_counterexample :
    fErrRead.rdErr 0 = some 7 ∧ ew.readF fErrRead 1 = Out.abort ∧
      ew.readF fErrRead 1 ≠ Out.err 7 := by
  refine ⟨rfl, rfl, ?_⟩
  decide

/-!
Concrete witnesses: each instantiates the corresponding claim theorem at
the two-page, 1 KiB-page controller `ew`.
-/

set_option maxRecDepth 100000 in
/-- C1 witness: write tag 1 / value 0xDEAD to the canonical empty state
and read it back. -/
theorem claim_c1_witness :
    ∃ hs : (ew.write memCanon 1 57005).isSome = true,
      ew.Valid ∧ ew.Inv memCanon ∧ (1 : Nat) ≤ 32767 ∧ (57005 : Nat) < 65536 ∧
      ew.read ((ew.write memCanon 1 57005).get hs).1 1 = some (some 57005) := by
  have hV : ew.Valid := ⟨by decide, by decide, by decide⟩
  have hInv : ew.Inv memCanon :=
    ⟨0, by decide, by decide, by decide,
      ⟨1, by decide, by decide, by decide, by decide⟩⟩
  have hs : (ew.write memCanon 1 57005).isSome = true := by decide
  exact ⟨hs, hV, hInv, by decide, by decide,
    claim_c1 ew memCanon 1 57005 hV hInv (by decide) (by decide) hs⟩

set_option maxRecDepth 100000 in
/-- C2 witness: in a state whose slot 1 holds tag 1 / data 0xDEAD, the
read of tag 1 returns that data. -/
theorem claim_c2_witness :
    (1 : Nat) ≤ 32767 ∧ ew.findActive memOne = some 0 ∧
      ew.read memOne 1 = some (some 57005) := by
  refine ⟨by decide, by decide, ?_⟩
  exact ((claim_c2 ew memOne 0 1 (by decide) (by decide)).1 57005).mpr
    ⟨1, by decide, by decide, by decide, by decide, by decide, by decide⟩

set_option maxRecDepth 100000 in
/-- C3 witness: the trace of a concrete write is well ordered. -/
theorem claim_c3_witness :
    ∃ hs : (ew.write memCanon 2 48879).isSome = true,
      ew.GoodTrace ((ew.write memCanon 2 48879).get hs).2 := by
  have hs : (ew.write memCanon 2 48879).isSome = true := by decide
  exact ⟨hs, claim_c3 ew memCanon 2 48879 hs⟩

set_option maxRecDepth 100000 in
/-- C4 witness: `init` on a state whose page 0 is active and full leaves
the active page untouched. -/
theorem claim_c4_witness :
    ew.Valid ∧ ∀ o, ew.pageOffset 0 ≤ o → o < ew.pageOffset 0 + ew.pageItems * 4 →
      (ew.init memFull).1 o = memFull o := by
  have hV : ew.Valid := ⟨by decide, by decide, by decide⟩
  exact ⟨hV, ((claim_c4 ew memFull hV).1 0 (by decide)).1⟩

set_option maxRecDepth 100000 in
/-- C5 witness: compaction of the full page 0 returns page 1. -/
theorem claim_c5_witness :
    ew.Valid ∧ 0 < ew.params.pageCount ∧
    (¬ ew.readItem memFull 0 (ew.pageItems - 1) = ERASED_ITEM) ∧
    (∀ i, i < ew.pageItems → 1 ≤ i →
      ew.readItem memFull ((0 + 1) % ew.params.pageCount) i = ERASED_ITEM) ∧
    (ew.rescueIfFull memFull 0).1 = (0 + 1) % ew.params.pageCount := by
  have hV : ew.Valid := ⟨by decide, by decide, by decide⟩
  have hfull : ¬ ew.readItem memFull 0 (ew.pageItems - 1) = ERASED_ITEM := by decide
  have her : ∀ i, i < ew.pageItems → 1 ≤ i →
      ew.readItem memFull ((0 + 1) % ew.params.pageCount) i = ERASED_ITEM := by decide
  exact ⟨hV, by decide, hfull, her,
    (claim_c5 ew memFull 0 hV (by decide) hfull her).1⟩

set_option maxRecDepth 100000 in
/-- C6 witness: writing tag 2 does not change the value read for tag 1. -/
theorem claim_c6_witness :
    ∃ hs : (ew.write memOne 2 48879).isSome = true,
      ew.Valid ∧ ew.Inv memOne ∧
      ew.read ((ew.write memOne 2 48879).get hs).1 1 = ew.read memOne 1 := by
  have hV : ew.Valid := ⟨by decide, by decide, by decide⟩
  have hInv : ew.Inv memOne :=
    ⟨0, by decide, by decide, by decide,
      ⟨2, by decide, by decide, by decide, by decide⟩⟩
  have hs : (ew.write memOne 2 48879).isSome = true := by decide
  exact ⟨hs, hV, hInv,
    claim_c6 ew memOne 2 1 48879 hV hInv (by decide) (by decide) (by decide) hs⟩

set_option maxRecDepth 100000 in
/-- C7 witness: after `erase` on a fully erased region, page 0 carries
the active marker. -/
theorem claim_c7_witness :
    ew.Valid ∧ ew.pageStatus (ew.erase memEmpty).1 0 = ACTIVE_PAGE_MARKER := by
  have hV : ew.Valid := ⟨by decide, by decide, by decide⟩
  exact ⟨hV, (claim_c7 ew memEmpty hV).1⟩

set_option maxRecDepth 100000 in
/-- C8 witness: a second `init` after `init` on a full-page state leaves
every offset unchanged. -/
theorem claim_c8_witness :
    ew.Valid ∧ ∀ o, (ew.init (ew.init memFull).1).1 o = (ew.init memFull).1 o := by
  have hV : ew.Valid := ⟨by decide, by decide, by decide⟩
  exact ⟨hV, claim_c8 ew memFull hV⟩

set_option maxRecDepth 100000 in
/-- C9 witness: an `init` over a device that fails the marker program
with error 9 returns that very error, which is one the collaborator
injected for a half-word program. -/
theorem claim_c9_witness :
    ew.initF fErrWrite = Out.err 9 ∧ fErrWrite.FromWrEr 9 := by
  have h : ew.initF fErrWrite = Out.err 9 := by rfl
  exact ⟨h, (claim_c9 ew fErrWrite 1 2).1 9 h⟩

set_option maxRecDepth 100000 in
/-- C10 witness: a non-compacting write into the one-slot state programs
slot 2 with `(V << 16) | T` and changes nothing else. -/
theorem claim_c10_witness :
    ∃ hs : (ew.write memOne 1 47806).isSome = true,
      ew.findActive memOne = some 0 ∧
      ew.readItem memOne 0 (ew.pageItems - 1) = ERASED_ITEM ∧
      ∃ s, ew.findFree memOne 0 = some s ∧ 1 ≤ s ∧ s < ew.pageItems ∧
        ew.readItem memOne 0 s = ERASED_ITEM ∧
        (∀ j, j < s → 1 ≤ j → ew.readItem memOne 0 j ≠ ERASED_ITEM) ∧
        ew.readItem ((ew.write memOne 1 47806).get hs).1 0 s = 47806 * 65536 + 1 ∧
        ∀ o, o ≠ ew.itemOffset 0 s → o ≠ ew.itemOffset 0 s + 2 →
          ((ew.write memOne 1 47806).get hs).1 o = memOne o := by
  have hs : (ew.write memOne 1 47806).isSome = true := by decide
  exact ⟨hs, by decide, by decide,
    claim_c10 ew memOne 0 1 47806 (by decide) (by decide) (by decide) (by decide) hs⟩

end Eeprom
